import Mathlib

/-!
Verification of the scheduling core in `src/Halide/src/Func.cpp` (the stage
scheduling directives: `split`, `fuse`, `rename`, `purify`, `reorder`,
`set_dim_type`, `atomic`, `allow_race_conditions`, `remove_dimension`, and
`rfactor`).  The C++ state (a stage's `Definition` with its `StageSchedule`)
is embedded shallowly: vectors become lists, in-place mutation becomes
explicit state passing, and a `user_error`/`user_assert` failure becomes an
`Option SchedErr` paired with the state as mutated up to the failure point
(Halide's `user_assert` throws, so mutations made before the check remain
visible on the underlying schedule).  The associativity/commutativity prover
and the expression simplifier are external collaborators of this core and are
passed in as parameters / modelled where noted.
-/

namespace Sched

/- Expression trees, a shallow embedding of the `Halide::Expr` fragment the
scheduling directives manipulate: integer immediates, variables, arithmetic,
and calls (`call f args valueIndex`, covering both `Call::Halide` self
references and plain function calls).  `undefinedE` stands for the default
`Expr()` used as the factor of fuse/rename history entries. -/
mutual
inductive Expr where
  | intImm : Int → Expr
  | evar : String → Expr
  | add : Expr → Expr → Expr
  | sub : Expr → Expr → Expr
  | mul : Expr → Expr → Expr
  | div : Expr → Expr → Expr
  | call : String → ExprList → Nat → Expr
  | undefinedE : Expr
inductive ExprList where
  | nil : ExprList
  | cons : Expr → ExprList → ExprList
end

def ExprList.ofList : List Expr → ExprList
  | [] => .nil
  | e :: es => .cons e (ExprList.ofList es)

def ExprList.toList : ExprList → List Expr
  | .nil => []
  | .cons e es => e :: ExprList.toList es

def ExprList.appendList : ExprList → List Expr → ExprList
  | .nil, l => ExprList.ofList l
  | .cons e es, l => .cons e (ExprList.appendList es l)

def lookupSub (m : List (String × Expr)) (s : String) : Option Expr :=
  match m with
  | [] => none
  | (k, v) :: rest => if k = s then some v else lookupSub rest s

/- Embedding of the external collaborator
`ExpressionSubstitution.substitute(map, expr)` (`Substitute.h`): simultaneous
substitution of variables by expressions, a pure tree rewrite. -/
mutual
def substMapE (m : List (String × Expr)) : Expr → Expr
  | .intImm n => .intImm n
  | .evar s => match lookupSub m s with
      | some e => e
      | none => .evar s
  | .add a b => .add (substMapE m a) (substMapE m b)
  | .sub a b => .sub (substMapE m a) (substMapE m b)
  | .mul a b => .mul (substMapE m a) (substMapE m b)
  | .div a b => .div (substMapE m a) (substMapE m b)
  | .call f as i => .call f (substMapL m as) i
  | .undefinedE => .undefinedE
def substMapL (m : List (String × Expr)) : ExprList → ExprList
  | .nil => .nil
  | .cons e es => .cons (substMapE m e) (substMapL m es)
end

/- Embedding of `substitute_self_reference` (`Func.cpp`): replace every
`Call::Halide` call to `funcName` by a call to `newName` with `newArgs`
(as variables) appended after the original call arguments, keeping the
value index. -/
mutual
def substSelfRefE (funcName newName : String) (newArgs : List String) : Expr → Expr
  | .intImm n => .intImm n
  | .evar s => .evar s
  | .add a b => .add (substSelfRefE funcName newName newArgs a) (substSelfRefE funcName newName newArgs b)
  | .sub a b => .sub (substSelfRefE funcName newName newArgs a) (substSelfRefE funcName newName newArgs b)
  | .mul a b => .mul (substSelfRefE funcName newName newArgs a) (substSelfRefE funcName newName newArgs b)
  | .div a b => .div (substSelfRefE funcName newName newArgs a) (substSelfRefE funcName newName newArgs b)
  | .call f as i =>
      let as' := substSelfRefL funcName newName newArgs as
      if f = funcName then
        .call newName (as'.appendList (newArgs.map Expr.evar)) i
      else
        .call f as' i
  | .undefinedE => .undefinedE
def substSelfRefL (funcName newName : String) (newArgs : List String) : ExprList → ExprList
  | .nil => .nil
  | .cons e es => .cons (substSelfRefE funcName newName newArgs e) (substSelfRefL funcName newName newArgs es)
end

/- Embedding of `expr_uses_vars(expr, scope)` (`ExprUsesVar.h`): whether the
expression mentions any variable from `names`. -/
mutual
def usesAnyE (names : List String) : Expr → Bool
  | .intImm _ => false
  | .evar s => names.any (fun n => n = s)
  | .add a b => usesAnyE names a || usesAnyE names b
  | .sub a b => usesAnyE names a || usesAnyE names b
  | .mul a b => usesAnyE names a || usesAnyE names b
  | .div a b => usesAnyE names a || usesAnyE names b
  | .call _ as _ => usesAnyL names as
  | .undefinedE => false
def usesAnyL (names : List String) : ExprList → Bool
  | .nil => false
  | .cons e es => usesAnyE names e || usesAnyL names es
end

/-- Modelled from the spec: the external `ExpressionSimplifier.simplify`
(§6, "pure constant/algebraic folding, used to compute bound expressions like
`min+extent-1`"; `Simplify.h` is not part of the scheduling core).  We model
only integer constant folding; division is Halide's floor (Euclidean toward
negative infinity) division. -/
def simplify : Expr → Expr
  | .intImm n => .intImm n
  | .evar s => .evar s
  | .add a b =>
      match simplify a, simplify b with
      | .intImm x, .intImm y => .intImm (x + y)
      | a', b' => .add a' b'
  | .sub a b =>
      match simplify a, simplify b with
      | .intImm x, .intImm y => .intImm (x - y)
      | a', b' => .sub a' b'
  | .mul a b =>
      match simplify a, simplify b with
      | .intImm x, .intImm y => .intImm (x * y)
      | a', b' => .mul a' b'
  | .div a b =>
      match simplify a, simplify b with
      | .intImm x, .intImm y => if y = 0 then .div (.intImm x) (.intImm y) else .intImm (Int.fdiv x y)
      | a', b' => .div a' b'
  | .call f as i => .call f as i
  | .undefinedE => .undefinedE

/-- Loop iteration strategies (`ForType` in `Expr.h`). -/
inductive ForType where
  | Serial
  | Parallel
  | Vectorized
  | Unrolled
  | ExternFor
  | GPUBlock
  | GPUThread
  | GPULane
deriving DecidableEq

/-- Modelled from the spec: `is_parallel(ForType)` lives in `Expr.h`, outside
the scheduling core.  Per §4.6 the race gate fires when marking a dimension
`Parallel`/`Vectorized`; upstream also counts the GPU loop types as parallel. -/
def is_parallel (t : ForType) : Bool :=
  match t with
  | .Parallel => true
  | .Vectorized => true
  | .GPUBlock => true
  | .GPUThread => true
  | .GPULane => true
  | _ => false

/-- Device placement of a loop dimension (`DeviceAPI`); only `None` matters
to the scheduling directives modelled here. -/
inductive DeviceAPI where
  | noneAPI
  | otherAPI
deriving DecidableEq

/-- Dimension kinds (`Dim::Type` in `Schedule.h`). -/
inductive DimType where
  | PureVar
  | PureRVar
  | ImpureRVar
deriving DecidableEq

/-- One entry of the Dimension List (`Dim` in `Schedule.h`). -/
structure Dim where
  var : String
  for_type : ForType
  device_api : DeviceAPI
  dim_type : DimType
deriving DecidableEq

instance : Inhabited Dim := ⟨⟨"", .Serial, .noneAPI, .PureVar⟩⟩

def Dim.is_pure (d : Dim) : Bool :=
  d.dim_type = .PureVar || d.dim_type = .PureRVar

def Dim.is_rvar (d : Dim) : Bool :=
  d.dim_type = .PureRVar || d.dim_type = .ImpureRVar

/-- Tail strategies for splits. -/
inductive TailStrategy where
  | Auto
  | RoundUp
  | GuardWithIf
  | ShiftInwards
deriving DecidableEq

/-- Kinds of Split History entries (`Split::SplitType` in `Schedule.h`). -/
inductive SplitKind where
  | SplitVar
  | RenameVar
  | PurifyRVar
  | FuseVars
deriving DecidableEq

/-- One Split History entry (`Split` in `Schedule.h`). -/
structure Split where
  old_var : String
  outer : String
  inner : String
  factor : Expr
  exact : Bool
  tail : TailStrategy
  split_type : SplitKind

def Split.is_rename (s : Split) : Bool := s.split_type = .RenameVar
def Split.is_split (s : Split) : Bool := s.split_type = .SplitVar
def Split.is_fuse (s : Split) : Bool := s.split_type = .FuseVars
def Split.is_purify (s : Split) : Bool := s.split_type = .PurifyRVar

/-- One reduction variable of the Reduction Domain. -/
structure ReductionVariable where
  var : String
  min : Expr
  extent : Expr

/-- The per-stage schedule state the directives mutate (`StageSchedule` in
`Schedule.h`): the Dimension List, the Split History, the Reduction Domain
variables and the race-gate flags.  `fuse_level` abbreviates the
`FuseLoopLevel` back reference to a `compute_with` target dimension (only the
dimension name matters to `reorder`). -/
structure StageSchedule where
  dims : List Dim
  splits : List Split
  rvars : List ReductionVariable
  allow_race_conditions : Bool
  atomic : Bool
  override_atomic_associativity_test : Bool
  fuse_level : Option String

/-- One definition (init or update) of a function: its left-hand-side
arguments, right-hand-side values, reduction-domain predicate (as a list of
conjuncts, `split_predicate` in the source) and schedule. -/
structure Definition where
  is_init : Bool
  args : List Expr
  values : List Expr
  predicates : List Expr
  schedule : StageSchedule

/-- A handle to one stage of a function, as held by the caller of the
directives (`Stage` in `Func.h`): the owning function's name, its pure
arguments (`dim_vars`) and the mutable definition. -/
structure Stage where
  func_name : String
  dim_vars : List String
  definition : Definition

/-- Result of the external associativity/commutativity prover
(`prove_associativity` in `Associativity.h`): whether the update operator is
associative/commutative, the per-tuple-slot identity elements, the decomposed
binary-op patterns `ops`, and the names of the accumulator (`xs`) and new
contribution (`ys`) operands inside each pattern (`""` when absent). -/
structure AssociativityProverResult where
  associative : Bool
  commutative : Bool
  identities : List Expr
  ops : List Expr
  xs : List String
  ys : List String

/-- The external prover interface: `prove_associativity(func_name, args,
values)`, pure and deterministic. -/
def ProverFn : Type := String → List Expr → List Expr → AssociativityProverResult

/-- User-facing scheduling errors raised by the directives (`user_error` /
`user_assert` sites in `Func.cpp`). -/
inductive SchedErr where
  | nameCollision : String → SchedErr
  | dimNotFound : String → SchedErr
  | roundUpForbidden : SchedErr
  | shiftInwardsOnUpdate : SchedErr
  | exactTailNotGuard : SchedErr
  | raceCondition : String → SchedErr
  | atomicNonAssociative : SchedErr
  | multipleVectorization : String → SchedErr
  | mixedVarKinds : SchedErr
  | notAssociative : SchedErr
  | orderViolation : SchedErr
  | rvarNotInDomain : String → SchedErr
  | rfactorOnInit : SchedErr
  | unsafeReorder : SchedErr
  | alreadyFused : String → SchedErr
  | alreadyTransformed : String → SchedErr
deriving DecidableEq

/-- Suffix-based dimension-name matching (`var_name_match` in `Func.cpp`):
directives name dimensions by unqualified name; a qualified candidate matches
when equal or when it ends in `"." ++ var`. -/
def var_name_match (candidate v : String) : Bool :=
  candidate == v || (("." ++ v).data.isSuffixOf candidate.data)

end Sched

namespace Sched

def Stage.dims (st : Stage) : List Dim := st.definition.schedule.dims

def Stage.splits (st : Stage) : List Split := st.definition.schedule.splits

def Stage.rvars (st : Stage) : List ReductionVariable := st.definition.schedule.rvars

def setDims (st : Stage) (dims : List Dim) : Stage :=
  { st with definition := { st.definition with schedule := { st.definition.schedule with dims := dims } } }

def setSplits (st : Stage) (splits : List Split) : Stage :=
  { st with definition := { st.definition with schedule := { st.definition.schedule with splits := splits } } }

def appendSplit (st : Stage) (s : Split) : Stage :=
  setSplits st (st.splits ++ [s])

/-- The race gate of `Stage::set_dim_type` (`Func.cpp` lines 329–365), hit when
an impure reduction dimension is marked with a parallel `ForType`: with
`atomic()` set but neither `allow_race_conditions()` nor the override flag,
the prover must certify associativity; after that, one of
`allow_race_conditions()`/`atomic()` must be set or the race-condition error
naming the dimension is raised. -/
def raceGateErr (sch : StageSchedule) (pr : AssociativityProverResult) (vname : String) :
    Option SchedErr :=
  if !sch.allow_race_conditions && sch.atomic &&
     !sch.override_atomic_associativity_test && !pr.associative then
    some .atomicNonAssociative
  else if !(sch.allow_race_conditions || sch.atomic) then
    some (.raceCondition vname)
  else none

/-- The dimension walk of `Stage::set_dim_type`: each matching dimension gets
`for_type := t` first and is then race-checked; each non-matching dimension
triggers the multiple-vectorization error when `t` is `Vectorized` and it is
already vectorized.  Returns (error, dims as mutated up to the failure, found). -/
def set_dim_type_go (sch : StageSchedule) (pr : AssociativityProverResult)
    (vname : String) (isRvar : Bool) (t : ForType) :
    List Dim → Option SchedErr × List Dim × Bool
  | [] => (none, [], false)
  | d :: rest =>
    if var_name_match d.var vname then
      let d' := { d with for_type := t }
      if !d'.is_pure && isRvar && is_parallel t then
        match raceGateErr sch pr vname with
        | some e => (some e, d' :: rest, true)
        | none =>
            let r := set_dim_type_go sch pr vname isRvar t rest
            (r.1, d' :: r.2.1, true)
      else
        let r := set_dim_type_go sch pr vname isRvar t rest
        (r.1, d' :: r.2.1, true)
    else
      if t = .Vectorized && d.for_type = .Vectorized then
        (some (.multipleVectorization vname), d :: rest, false)
      else
        let r := set_dim_type_go sch pr vname isRvar t rest
        (r.1, d :: r.2.1, r.2.2)

/-- Embedding of `Stage::set_dim_type` (`Func.cpp` lines 319–382).  The prover
is invoked lazily in the source; since it is pure the outcome is identical
when it is computed up front.  Only the Dimension List is ever written. -/
def Stage.set_dim_type (prover : ProverFn) (st : Stage) (vname : String)
    (isRvar : Bool) (t : ForType) : Option SchedErr × Stage :=
  let sch := st.definition.schedule
  let pr := prover st.func_name st.definition.args st.definition.values
  let r := set_dim_type_go sch pr vname isRvar t sch.dims
  let e := match r.1 with
           | some e => some e
           | none => if r.2.2 then none else some (.dimNotFound vname)
  (e, setDims st r.2.1)

/-- Embedding of `Stage::parallel(var)` — `set_dim_type(var, Parallel)`. -/
def Stage.parallel (prover : ProverFn) (st : Stage) (vname : String) (isRvar : Bool) :
    Option SchedErr × Stage :=
  Stage.set_dim_type prover st vname isRvar .Parallel

/-- Embedding of `Stage::vectorize(var)` — `set_dim_type(var, Vectorized)`. -/
def Stage.vectorize (prover : ProverFn) (st : Stage) (vname : String) (isRvar : Bool) :
    Option SchedErr × Stage :=
  Stage.set_dim_type prover st vname isRvar .Vectorized

/-- Embedding of `Stage::atomic(override_associativity_test)` (`Func.cpp`
lines 1465–1469): sets the two flags, performs no validation. -/
def Stage.atomic (st : Stage) (override_flag : Bool) : Stage :=
  { st with definition := { st.definition with schedule :=
      { st.definition.schedule with atomic := true,
                                    override_atomic_associativity_test := override_flag } } }

/-- Embedding of `Stage::allow_race_conditions()` (`Func.cpp` lines
1460–1463): sets the flag, performs no validation. -/
def Stage.allow_race_conditions (st : Stage) : Stage :=
  { st with definition := { st.definition with schedule :=
      { st.definition.schedule with allow_race_conditions := true } } }

/-- The name-collision scan at the top of `Stage::split` (`Func.cpp` lines
955–966): for each dimension, the inner then the outer new name is rejected
when it matches an existing dimension and differs from `old`. -/
def collisionScanGo (old outerN innerN : String) : List Dim → Option String
  | [] => none
  | d :: rest =>
      if var_name_match d.var innerN && innerN ≠ old then some innerN
      else if var_name_match d.var outerN && outerN ≠ old then some outerN
      else collisionScanGo old outerN innerN rest

/-- The find-and-replace step of `Stage::split` (`Func.cpp` lines 969–986):
the first dimension matching `old` is replaced in place by the inner then the
outer dimension (both inheriting its attributes); an `Extern` loop forces the
new outer loop to `Serial`.  Returns the qualified old name and new dims. -/
def splitFindReplace (old outerN innerN : String) : List Dim → Option (String × List Dim)
  | [] => none
  | d :: rest =>
      if var_name_match d.var old then
        let old_name := d.var
        let dInner := { d with var := old_name ++ "." ++ innerN }
        let dOuter0 := { d with var := old_name ++ "." ++ outerN }
        let dOuter := if d.for_type = .ExternFor then { dOuter0 with for_type := .Serial } else dOuter0
        some (old_name, dInner :: dOuter :: rest)
      else
        match splitFindReplace old outerN innerN rest with
        | some (n, rest') => some (n, d :: rest')
        | none => none

/-- One step of the `inner_vars` set computation of `Stage::split` (`Func.cpp`
lines 1002–1018), deciding whether `old_name` already descends from an inner
split variable (in which case `RoundUp` would recompute values). -/
def innerVarsStep (acc : List String) (s : Split) : List String :=
  if s.is_split then
    let acc1 := s.inner :: acc
    if acc1.contains s.old_var then s.outer :: acc1 else acc1
  else if s.is_rename || s.is_purify then
    (if acc.contains s.old_var then s.outer :: acc else acc)
  else
    (if acc.contains s.inner || acc.contains s.outer then s.old_var :: acc else acc)

def innerVars (splits : List Split) : List String :=
  splits.foldl innerVarsStep []

def mapInsert (m : List (String × Expr)) (k : String) (v : Expr) : List (String × Expr) :=
  match m with
  | [] => [(k, v)]
  | (k', v') :: rest => if k' = k then (k, v) :: rest else (k', v') :: mapInsert rest k v

/-- One step of the `descends_from_shiftinwards_outer` map computation of
`Stage::split` (`Func.cpp` lines 1058–1070): a ShiftInwards split records its
outer with its factor; descendants of recorded variables inherit the factor
through splits, renames and purifies. -/
def descendsStep (m : List (String × Expr)) (s : Split) : List (String × Expr) :=
  let it := lookupSub m s.old_var
  if s.is_split && s.tail = .ShiftInwards then
    mapInsert m s.outer s.factor
  else if s.is_split then
    match it with
    | some f => mapInsert (mapInsert m s.inner f) s.outer f
    | none => m
  else if s.is_rename || s.is_purify then
    match it with
    | some f => mapInsert m s.outer f
    | none => m
  else m

def descends_from_shiftinwards_outer (splits : List Split) : List (String × Expr) :=
  splits.foldl descendsStep []

/-- The `tail == TailStrategy::Auto` resolution of `Stage::split` (`Func.cpp`
lines 1028–1079): exact splits resolve to `GuardWithIf`; update definitions
resolve to `RoundUp` when the dimension is not an inner split descendant and
`GuardWithIf` otherwise; init definitions resolve to `ShiftInwards` unless
the `descends_from_shiftinwards_outer` walk recorded a dominating factor that
`can_prove`s at least as large, in which case `RoundUp`. -/
def resolve_tail_auto (canProve : Expr → Expr → Bool) (splits0 : List Split)
    (is_init : Bool) (old_name : String) (factor : Expr) (exact : Bool)
    (round_up_ok : Bool) (tail : TailStrategy) : TailStrategy :=
  if tail = .Auto then
    (if exact then .GuardWithIf
     else if !is_init then
       (if round_up_ok then .RoundUp else .GuardWithIf)
     else
       match lookupSub (descends_from_shiftinwards_outer splits0) old_name with
       | some f2 => if canProve f2 factor then .RoundUp else .ShiftInwards
       | none => .ShiftInwards)
  else tail

/-- The validation/mutation core of `Stage::split(old, outer, inner, factor,
exact, tail)` (`Func.cpp` lines 949–1098), computing the resulting Dimension
List and Split History from the current ones.  `canProve f2 factor` stands
for the external `can_prove(f2 >= factor)` used by the ShiftInwards-dominance
heuristic.  The dimension replacement happens before the tail-strategy
validation, so a failing validation returns the already-mutated Dimension
List; the history entry is appended only on success. -/
def split_core (canProve : Expr → Expr → Bool) (dims0 : List Dim)
    (splits0 : List Split) (is_init : Bool) (old outerN innerN : String)
    (factor : Expr) (exact : Bool) (tail : TailStrategy) :
    Option SchedErr × List Dim × List Split :=
  match collisionScanGo old outerN innerN dims0 with
  | some n => (some (.nameCollision n), dims0, splits0)
  | none =>
    match splitFindReplace old outerN innerN dims0 with
    | none => (some (.dimNotFound old), dims0, splits0)
    | some (old_name, dims') =>
      let round_up_ok0 := !exact
      let round_up_ok :=
        if round_up_ok0 && !is_init then
          !(innerVars splits0).contains old_name
        else round_up_ok0
      if round_up_ok0 && !is_init && !round_up_ok && tail = .RoundUp then
        (some .roundUpForbidden, dims', splits0)
      else
        let tail1 := resolve_tail_auto canProve splits0 is_init old_name factor
                       exact round_up_ok tail
        if !is_init && tail1 = .ShiftInwards then
          (some .shiftInwardsOnUpdate, dims', splits0)
        else if exact && tail1 ≠ .GuardWithIf then
          (some .exactTailNotGuard, dims', splits0)
        else
          (none, dims', splits0 ++
            [{ old_var := old_name, outer := old_name ++ "." ++ outerN,
               inner := old_name ++ "." ++ innerN, factor := factor,
               exact := exact, tail := tail1, split_type := .SplitVar }])

/-- Embedding of `Stage::split` (`Func.cpp` lines 949–1098): runs the core on
the stage's schedule; nothing but the Dimension List and Split History is
written. -/
def Stage.split (canProve : Expr → Expr → Bool) (st : Stage)
    (old outerN innerN : String) (factor : Expr) (exact : Bool)
    (tail : TailStrategy) : Option SchedErr × Stage :=
  let sch := st.definition.schedule
  let r := split_core canProve sch.dims sch.splits st.definition.is_init
             old outerN innerN factor exact tail
  (r.1, setSplits (setDims st r.2.1) r.2.2)

/-- Embedding of the public `Stage::split(VarOrRVar, ...)` overload
(`Func.cpp` lines 1100–1110): an RVar may only be split into RVars, a Var
only into Vars, and `exact` is set exactly when the split variable is an
RVar.  Each name is paired with its `is_rvar` flag. -/
def Stage.splitVoR (canProve : Expr → Expr → Bool) (st : Stage)
    (old outerV innerV : String × Bool) (factor : Expr) (tail : TailStrategy) :
    Option SchedErr × Stage :=
  if old.2 then
    if !outerV.2 then (some .mixedVarKinds, st)
    else if !innerV.2 then (some .mixedVarKinds, st)
    else Stage.split canProve st old.1 outerV.1 innerV.1 factor true tail
  else
    if outerV.2 then (some .mixedVarKinds, st)
    else if innerV.2 then (some .mixedVarKinds, st)
    else Stage.split canProve st old.1 outerV.1 innerV.1 factor false tail

def findEraseOuter (nameO : String) : List Dim → Option (String × DimType × List Dim)
  | [] => none
  | d :: rest =>
      if var_name_match d.var nameO then some (d.var, d.dim_type, rest)
      else
        match findEraseOuter nameO rest with
        | some (n, ty, rest') => some (n, ty, d :: rest')
        | none => none

def fuseInnerReplace (nameI fusedN : String) (outer_type : DimType) :
    List Dim → Option (String × String × List Dim)
  | [] => none
  | d :: rest =>
      if var_name_match d.var nameI then
        let inner_name := d.var
        let fused_name := inner_name ++ "." ++ fusedN
        let newType :=
          if d.is_rvar then
            (if d.dim_type = .PureRVar && outer_type = .PureRVar then DimType.PureRVar
             else DimType.ImpureRVar)
          else d.dim_type
        some (inner_name, fused_name, { d with var := fused_name, dim_type := newType } :: rest)
      else
        match fuseInnerReplace nameI fusedN outer_type rest with
        | some (i, f, rest') => some (i, f, d :: rest')
        | none => none

/-- Embedding of `Stage::fuse(inner, outer, fused)` (`Func.cpp` lines
1112–1180): kinds must agree, the outer dimension is erased, the inner one is
renamed to `inner.fused` (its kind stays `PureRVar` only when both inputs
were), and a `FuseVars` history entry is appended. -/
def Stage.fuse (st : Stage) (innerV outerV fusedV : String × Bool) :
    Option SchedErr × Stage :=
  if innerV.2 && (!outerV.2 || !fusedV.2) then (some .mixedVarKinds, st)
  else if !innerV.2 && (outerV.2 || fusedV.2) then (some .mixedVarKinds, st)
  else
    match findEraseOuter outerV.1 st.dims with
    | none => (some (.dimNotFound outerV.1), st)
    | some (outer_name, outer_type, dims1) =>
        match fuseInnerReplace innerV.1 fusedV.1 outer_type dims1 with
        | none => (some (.dimNotFound innerV.1), setDims st dims1)
        | some (inner_name, fused_name, dims2) =>
            (none, appendSplit (setDims st dims2)
              { old_var := fused_name, outer := outer_name, inner := inner_name,
                factor := .undefinedE, exact := true, tail := .RoundUp,
                split_type := .FuseVars })

def purifyReplace (oldN newName : String) : List Dim → Option (String × List Dim)
  | [] => none
  | d :: rest =>
      if var_name_match d.var oldN then
        some (d.var, { d with var := newName, dim_type := .PureVar } :: rest)
      else
        match purifyReplace oldN newName rest with
        | some (n, rest') => some (n, d :: rest')
        | none => none

/-- Embedding of `Stage::purify(old_var, new_var)` (`Func.cpp` lines
1236–1274): requires an RVar old and a Var new, converts the matching
dimension to `PureVar` kind with the (unqualified) new name, and appends a
`PurifyRVar` history entry.  There is no collision check on the new name. -/
def Stage.purify (st : Stage) (old_var new_var : String × Bool) :
    Option SchedErr × Stage :=
  if !(old_var.2 && !new_var.2) then (some .mixedVarKinds, st)
  else
    match purifyReplace old_var.1 new_var.1 st.dims with
    | none => (some (.dimNotFound old_var.1), st)
    | some (old_name, dims') =>
        (none, appendSplit (setDims st dims')
          { old_var := old_name, outer := new_var.1, inner := "",
            factor := .intImm 1, exact := false, tail := .RoundUp,
            split_type := .PurifyRVar })

/-- The backward history walk of `Stage::rename` (`Func.cpp` lines
1413–1450), given the history in reverse order: rewrite the defining entry in
place when possible, error when `old_name` was already fused or transformed
away.  Returns whether a defining entry was rewritten. -/
def renameHistoryRev (old_name new_name : String) :
    List Split → Except SchedErr (Bool × List Split)
  | [] => .ok (false, [])
  | s :: rest =>
      if s.is_fuse then
        if s.inner = old_name || s.outer = old_name then .error (.alreadyFused s.old_var)
        else if s.old_var = old_name then .ok (true, { s with old_var := new_name } :: rest)
        else
          match renameHistoryRev old_name new_name rest with
          | .error e => .error e
          | .ok (f, rest') => .ok (f, s :: rest')
      else
        if s.inner = old_name then .ok (true, { s with inner := new_name } :: rest)
        else if s.outer = old_name then .ok (true, { s with outer := new_name } :: rest)
        else if s.old_var = old_name then .error (.alreadyTransformed old_name)
        else
          match renameHistoryRev old_name new_name rest with
          | .error e => .error e
          | .ok (f, rest') => .ok (f, s :: rest')

def renameReplace (oldN newN : String) : List Dim → Option (String × List Dim)
  | [] => none
  | d :: rest =>
      if var_name_match d.var oldN then
        some (d.var, { d with var := d.var ++ "." ++ newN } :: rest)
      else
        match renameReplace oldN newN rest with
        | some (n, rest') => some (n, d :: rest')
        | none => none

/-- Embedding of `Stage::rename(old_var, new_var)` (`Func.cpp` lines
1371–1458): kinds must agree, the matching dimension gets the qualifying
suffix appended, and the defining history entry is rewritten in place when it
can be found; otherwise a `RenameVar` entry is appended.  There is no
collision check on the new name. -/
def Stage.rename (st : Stage) (old_var new_var : String × Bool) :
    Option SchedErr × Stage :=
  if old_var.2 && !new_var.2 then (some .mixedVarKinds, st)
  else if !old_var.2 && new_var.2 then (some .mixedVarKinds, st)
  else
    match renameReplace old_var.1 new_var.1 st.dims with
    | none => (some (.dimNotFound old_var.1), st)
    | some (old_name, dims') =>
        let new_name := old_name ++ "." ++ new_var.1
        match renameHistoryRev old_name new_name st.splits.reverse with
        | .error e => (some e, setDims st dims')
        | .ok (found, splitsRev) =>
            if found then (none, setSplits (setDims st dims') splitsRev.reverse)
            else
              (none, appendSplit (setDims st dims')
                { old_var := old_name, outer := new_name, inner := "",
                  factor := .intImm 1, exact := old_var.2, tail := .RoundUp,
                  split_type := .RenameVar })

def removeDimFromDims (v : String) : List Dim → Option (List Dim)
  | [] => none
  | d :: rest =>
      if d.var = v then some rest
      else
        match removeDimFromDims v rest with
        | some rest' => some (d :: rest')
        | none => none

/-- The backward history walk of `remove_dimension` (`Func.cpp` lines
1311–1368), given the history in reverse order: entries subsumed by the
removal are dropped while the `removed_vars` set is propagated; an entry
showing `old_name` was already fused or split/renamed raises the
dependent-transform error. -/
def removeSplitsRev (old_name : String) (removed : List String) :
    List Split → Except SchedErr (List Split)
  | [] => .ok []
  | s :: rest =>
      if s.is_fuse then
        if s.inner = old_name || s.outer = old_name then
          .error (.alreadyFused s.old_var)
        else
          let rem := removed.contains s.old_var
          let removed' := if rem then s.outer :: s.inner :: removed else removed
          match removeSplitsRev old_name removed' rest with
          | .error e => .error e
          | .ok rest' => .ok (if rem then rest' else s :: rest')
      else if s.is_split then
        let rem := removed.contains s.inner || removed.contains s.outer
        let removed' := if rem then s.old_var :: removed else removed
        if s.old_var = old_name then .error (.alreadyTransformed old_name)
        else
          match removeSplitsRev old_name removed' rest with
          | .error e => .error e
          | .ok rest' => .ok (if rem then rest' else s :: rest')
      else
        let rem := removed.contains s.outer
        let removed' := if rem then s.old_var :: removed else removed
        if s.old_var = old_name then .error (.alreadyTransformed old_name)
        else
          match removeSplitsRev old_name removed' rest with
          | .error e => .error e
          | .ok rest' => .ok (if rem then rest' else s :: rest')

/-- Embedding of `remove_dimension(stage, definition, var)` (`Func.cpp` lines
1276–1369), the helper `rfactor` uses to drop lifted reduction variables:
erases the dimension (exact name match) and filters the Split History
backward; on a history error the dimension is already erased but the history
is untouched (the rebuilt vector is only swapped in on success). -/
def remove_dimension (st : Stage) (v : String) : Option SchedErr × Stage :=
  match removeDimFromDims v st.dims with
  | none => (some (.dimNotFound v), st)
  | some dims' =>
      match removeSplitsRev v [v] st.splits.reverse with
      | .error e => (some e, setDims st dims')
      | .ok splitsRev => (none, setSplits (setDims st dims') splitsRev.reverse)

def lastMatchIdxGo (vname : String) (i : Nat) : List Dim → Option Nat
  | [] => none
  | d :: rest =>
      match lastMatchIdxGo vname (i + 1) rest with
      | some j => some j
      | none => if var_name_match d.var vname then some i else none

/-- The index-resolution loop of `Stage::reorder` (`Func.cpp` lines
1559–1573): each var is tagged with the location of its (last) match in the
Dimension List; a missing var raises the dimension-not-found error. -/
def resolveIdx (dims : List Dim) : List String → Except SchedErr (List Nat)
  | [] => .ok []
  | v :: rest =>
      match lastMatchIdxGo v 0 dims with
      | none => .error (.dimNotFound v)
      | some j =>
          match resolveIdx dims rest with
          | .error e => .error e
          | .ok js => .ok (j :: js)

def anyBadPairGo : List (Nat × Bool) → Bool
  | [] => false
  | (k, imp) :: rest =>
      (imp && rest.any (fun p => p.2 && decide (p.1 < k))) || anyBadPairGo rest

/-- The RVar-reordering detection of `Stage::reorder` (`Func.cpp` lines
1578–1598): some pair `i < j` of impure dimensions has its relative order
changed (`idx[i] > idx[j]`).  The source calls the prover lazily on the first
such pair and caches the answer; as the prover is pure, erroring exactly when
such a pair exists and the proof fails is outcome-identical. -/
def anyBadPair (dims : List Dim) (idx : List Nat) : Bool :=
  anyBadPairGo (idx.map (fun k => (k, !(dims.getD k default).is_pure)))

def insertSorted (x : Nat) : List Nat → List Nat
  | [] => [x]
  | y :: rest => if x ≤ y then x :: y :: rest else y :: insertSorted x rest

def sortNat (l : List Nat) : List Nat := l.foldr insertSorted []

/-- The permutation step of `Stage::reorder` (`Func.cpp` lines 1601–1606):
`dims[sorted[i]] = dims_old[idx[i]]`. -/
def permuteDims (dims : List Dim) (idx : List Nat) : List Dim :=
  let sorted := sortNat idx
  (List.range idx.length).foldl
    (fun acc i => acc.set (sorted.getD i 0) (dims.getD (idx.getD i 0) default)) dims

def firstMatchPos (dims : List Dim) (vname : String) : Option Nat :=
  dims.findIdx? (fun d => var_name_match d.var vname)

/-- The `compute_with` re-pointing step of `Stage::reorder` (`Func.cpp` lines
1608–1651): when a fuse level is recorded, the dimension now occupying the
original position is located and the fuse level re-targeted to the requested
var matching it (the source's `internal_assert(found)` case keeps the old
target here). -/
def repointFuseLevel (dims_old dims_new : List Dim) (vars : List String)
    (orig : String) : String :=
  let new_name :=
    match firstMatchPos dims_old orig with
    | some i => (dims_new.getD i default).var
    | none => (dims_new.getD 0 default).var
  if new_name ≠ orig then
    match vars.find? (fun v => var_name_match v new_name) with
    | some v => v
    | none => orig
  else orig

/-- Embedding of `Stage::reorder(vars)` (`Func.cpp` lines 1551–1656). -/
def Stage.reorder (prover : ProverFn) (st : Stage) (vars : List String) :
    Option SchedErr × Stage :=
  let dims_old := st.dims
  match resolveIdx dims_old vars with
  | .error e => (some e, st)
  | .ok idx =>
      let pr := prover st.func_name st.definition.args st.definition.values
      if anyBadPair dims_old idx && !(pr.associative && pr.commutative) then
        (some .unsafeReorder, st)
      else
        let dims_new := permuteDims dims_old idx
        let fl' :=
          match st.definition.schedule.fuse_level with
          | none => none
          | some orig => some (repointFuseLevel dims_old dims_new vars orig)
        (none, { st with definition := { st.definition with schedule :=
            { st.definition.schedule with dims := dims_new, fuse_level := fl' } } })

end Sched

namespace Sched

instance : Inhabited ReductionVariable := ⟨⟨"", .intImm 0, .intImm 0⟩⟩

/-- The reduction-domain state `rfactor` replays the Split History over: the
current reduction variables plus the predicate/argument/value expressions
mutated alongside them (`Func.cpp` lines 495–641). -/
structure RDomState where
  rvars : List ReductionVariable
  predicates : List Expr
  args : List Expr
  values : List Expr

def RDomState.substAll (m : List (String × Expr)) (rs : RDomState) : RDomState :=
  { rs with predicates := rs.predicates.map (substMapE m),
            args := rs.args.map (substMapE m),
            values := rs.values.map (substMapE m) }

def findRV (name : String) : List ReductionVariable → Option ReductionVariable
  | [] => none
  | rv :: rest => if rv.var = name then some rv else findRV name rest

def replaceSplitRV (s : Split) : List ReductionVariable → List ReductionVariable
  | [] => []
  | rv :: rest =>
      if rv.var = s.old_var then
        { var := s.inner, min := Expr.intImm 0, extent := s.factor } ::
        { var := s.outer, min := Expr.intImm 0,
          extent := simplify (.div (.add (.sub rv.extent (.intImm 1)) s.factor) s.factor) } :: rest
      else rv :: replaceSplitRV s rest

/-- Embedding of `apply_split` on the reduction variables (`Func.cpp` lines
495–524): the old variable becomes the inner (min 0, extent `factor`)
followed by the outer (min 0, extent `simplify((extent-1+factor)/factor)`).
The expression rewrite applied to predicates/args/values is produced by the
external `ApplySplit.h`; it is modelled from the spec (§4.2/§6) as
`old ↦ outer*factor + inner + old_min`. -/
def apply_split (s : Split) (rs : RDomState) : Option RDomState :=
  match findRV s.old_var rs.rvars with
  | none => none
  | some oldRV =>
      let m : List (String × Expr) :=
        [(s.old_var, Expr.add (.mul (.evar s.outer) s.factor) (.add (.evar s.inner) oldRV.min))]
      some { rs.substAll m with rvars := replaceSplitRV s rs.rvars }

def replaceFuseRV (s : Split) (rvars : List ReductionVariable) : List ReductionVariable :=
  match rvars.findIdx? (fun rv => rv.var = s.outer), rvars.findIdx? (fun rv => rv.var = s.inner) with
  | some io, some ii =>
      let fused : ReductionVariable :=
        { var := s.old_var, min := Expr.intImm 0,
          extent := Expr.mul (rvars.getD io default).extent (rvars.getD ii default).extent }
      (rvars.set io fused).eraseIdx ii
  | _, _ => rvars

/-- Embedding of `apply_fuse` on the reduction variables (`Func.cpp` lines
528–559): the outer entry is replaced in place by the fused variable (min 0,
extent `outer.extent * inner.extent`) and the inner entry erased.  The
expression rewrite is modelled from the spec as `outer ↦ fused / innerExtent`
and `inner ↦ fused - (fused / innerExtent) * innerExtent`. -/
def apply_fuse (s : Split) (rs : RDomState) : Option RDomState :=
  match findRV s.outer rs.rvars, findRV s.inner rs.rvars with
  | some _, some innerRV =>
      let ie := innerRV.extent
      let m : List (String × Expr) :=
        [(s.outer, Expr.div (.evar s.old_var) ie),
         (s.inner, Expr.sub (.evar s.old_var) (.mul (.div (.evar s.old_var) ie) ie))]
      some { rs.substAll m with rvars := replaceFuseRV s rs.rvars }
  | _, _ => none

def erasePurifyRV (s : Split) : List ReductionVariable → List ReductionVariable
  | [] => []
  | rv :: rest => if rv.var = s.old_var then rest else rv :: erasePurifyRV s rest

/-- Embedding of `apply_purify` (`Func.cpp` lines 565–583): the reduction
variable is deleted from the list; references to it become references to the
replacement pure var (rewrite modelled as `old ↦ outer`). -/
def apply_purify (s : Split) (rs : RDomState) : Option RDomState :=
  match findRV s.old_var rs.rvars with
  | none => none
  | some _ =>
      some { rs.substAll [(s.old_var, Expr.evar s.outer)] with
             rvars := erasePurifyRV s rs.rvars }

def renameRV (s : Split) : List ReductionVariable → List ReductionVariable
  | [] => []
  | rv :: rest => if rv.var = s.old_var then { rv with var := s.outer } :: rest
                  else rv :: renameRV s rest

/-- Embedding of `apply_rename` (`Func.cpp` lines 586–603): the reduction
variable is renamed in place (rewrite modelled as `old ↦ outer`). -/
def apply_rename (s : Split) (rs : RDomState) : Option RDomState :=
  match findRV s.old_var rs.rvars with
  | none => none
  | some _ =>
      some { rs.substAll [(s.old_var, Expr.evar s.outer)] with
             rvars := renameRV s rs.rvars }

/-- Embedding of `apply_split_directive` (`Func.cpp` lines 607–641),
dispatching on the history entry kind; `none` when the entry does not apply
to the current reduction variables. -/
def apply_split_directive (s : Split) (rs : RDomState) : Option RDomState :=
  if s.is_split then apply_split s rs
  else if s.is_fuse then apply_fuse s rs
  else if s.is_purify then apply_purify s rs
  else apply_rename s rs

/-- The replay loop of `Stage::rfactor` (`Func.cpp` lines 722–731): every
pending history entry that still applies to the Reduction Domain is applied
and dropped; the rest are kept. -/
def replaySplits : List Split → RDomState → List Split × RDomState
  | [], rs => ([], rs)
  | s :: rest, rs =>
      match apply_split_directive s rs with
      | some rs' => replaySplits rest rs'
      | none =>
          let r := replaySplits rest rs
          (s :: r.1, r.2)

/-- The per-`preserved` validation of `Stage::rfactor` (`Func.cpp` lines
674–698): each RVar must (at its first match) name a reduction dimension and
each replacement Var must be unused; matched positions are flagged. -/
def markRfactored (dims : List Dim) :
    List (String × String) → List Bool → Except SchedErr (List Bool)
  | [], isR => .ok isR
  | (rv, v) :: rest, isR =>
      match dims.findIdx? (fun d => var_name_match d.var rv) with
      | none => .error (.rvarNotInDomain rv)
      | some i =>
          if (dims.getD i default).is_rvar then
            if dims.any (fun d => var_name_match d.var v) then .error (.nameCollision v)
            else markRfactored dims rest (isR.set i true)
          else .error (.rvarNotInDomain rv)

/-- The non-commutative order check of `Stage::rfactor` (`Func.cpp` lines
700–717), walking the Dimension List from the outermost end and tracking the
flag of the most recently seen reduction dimension: an rfactored dimension
under a non-rfactored outer reduction dimension is rejected. -/
def ncCheckGo (last : Option Bool) : List (Dim × Bool) → Bool
  | [] => true
  | (d, r) :: rest =>
      (if r then (match last with | some b => b | none => true) else true) &&
      ncCheckGo (if d.is_rvar then some r else last) rest

def ncCheck (dims : List Dim) (isR : List Bool) : Bool :=
  ncCheckGo none ((dims.zip isR).reverse)

/-- The purify loop of `Stage::rfactor` (`Func.cpp` lines 872–876) applied to
the intermediate stage's update definition. -/
def purifyAll (st : Stage) : List (String × String) → Option SchedErr × Stage
  | [] => (none, st)
  | (rv, v) :: rest =>
      match Stage.purify st (rv, true) (v, false) with
      | (some e, st') => (some e, st')
      | (none, st') => purifyAll st' rest

def insertBeforeLast (dims : List Dim) (d : Dim) : List Dim :=
  dims.take (dims.length - 1) ++ [d] ++ dims.drop (dims.length - 1)

/-- The dims completion of `Stage::rfactor` (`Func.cpp` lines 882–889): pure
vars of the function missing from the Dimension List are inserted before the
last (outermost) entry. -/
def addPureDims (dim_vars : List String) (dims : List Dim) : List Dim :=
  dim_vars.foldl
    (fun acc v =>
      if acc.any (fun d => var_name_match d.var v) then acc
      else insertBeforeLast acc
        { var := v, for_type := .Serial, device_api := .noneAPI, dim_type := .PureVar })
    dims

/-- The lifted-variable removal loop of `Stage::rfactor` (`Func.cpp` lines
891–894). -/
def removeAll (st : Stage) : List String → Option SchedErr × Stage
  | [] => (none, st)
  | v :: rest =>
      match remove_dimension st v with
      | (some e, st') => (some e, st')
      | (none, st') => removeAll st' rest

def posOfRV (rvars : List ReductionVariable) (name : String) : Nat :=
  (rvars.findIdx? (fun rv => var_name_match rv.var name)).getD rvars.length

def insertByPos (rvars : List ReductionVariable) (p : String × String) :
    List (String × String) → List (String × String)
  | [] => [p]
  | q :: rest =>
      if posOfRV rvars p.1 < posOfRV rvars q.1 then p :: q :: rest
      else q :: insertByPos rvars p rest

/-- The sort of `preserved` by position in the replayed Reduction Domain
(`Func.cpp` lines 745–756). -/
def sortPreserved (rvars : List ReductionVariable) (l : List (String × String)) :
    List (String × String) :=
  l.foldr (insertByPos rvars) []

def fullNameIn (rvars : List ReductionVariable) (name : String) : String :=
  match rvars.find? (fun rv => var_name_match rv.var name) with
  | some rv => rv.var
  | none => name

/-- The substitution of the prover's operand names by the self-load of the
original function and the call into the intermediate (`Func.cpp` lines
920–937); value index `i` selects the tuple slot. -/
def replAt (pr : AssociativityProverResult) (intm_name func_name : String)
    (f_load_args f_store_args : List Expr) (i : Nat) : List (String × Expr) :=
  (if (pr.ys.getD i "") ≠ "" then
     [(pr.ys.getD i "", Expr.call intm_name (ExprList.ofList f_load_args) i)]
   else []) ++
  (if (pr.xs.getD i "") ≠ "" then
     [(pr.xs.getD i "", Expr.call func_name (ExprList.ofList f_store_args) i)]
   else [])

def buildRepl (pr : AssociativityProverResult) (intm_name func_name : String)
    (f_load_args f_store_args : List Expr) (n : Nat) : List (String × Expr) :=
  (List.range n).foldl
    (fun acc i => acc ++ replAt pr intm_name func_name f_load_args f_store_args i) []

/-- The intermediate function `rfactor` synthesizes: its name, its pure (init)
definition's arguments and values, and its update stage. -/
structure IntmFunc where
  name : String
  init_args : List String
  init_values : List Expr
  update : Stage

/-- Embedding of `Stage::rfactor(preserved)` (`Func.cpp` lines 649–947).
Validation (associativity, `preserved` membership/freshness, the
non-commutative order check) happens before any mutation; the replay,
reduction-domain swap, intermediate construction, purify loop, dims
completion, lifted-variable removal and final args/values rewrite then follow
the source order, so a late failure returns the partially mutated stage.
The external `RDom` constructor over a vector of `ReductionVariable`s keeps
their names, so the intermediate's reduction domain reuses the lifted
variables' names and bounds.  Storage dims are not modelled (they do not
affect the claims about definitions and schedules). -/
def Stage.rfactor (prover : ProverFn) (st : Stage) (preserved : List (String × String)) :
    Option SchedErr × Stage × Option IntmFunc :=
  if st.definition.is_init then (some .rfactorOnInit, st, none)
  else
  let func_name := st.func_name
  let pr := prover func_name st.definition.args st.definition.values
  if !pr.associative then (some .notAssociative, st, none)
  else
  let dims0 := st.dims
  match markRfactored dims0 preserved (List.replicate dims0.length false) with
  | .error e => (some e, st, none)
  | .ok isR =>
    if !pr.commutative && !ncCheck dims0 isR then (some .orderViolation, st, none)
    else
    let rs0 : RDomState := { rvars := st.rvars, predicates := st.definition.predicates,
                             args := st.definition.args, values := st.definition.values }
    let rep := replaySplits st.splits rs0
    let splitsKept := rep.1
    let rs := rep.2
    let intm_rvars := rs.rvars.filter
      (fun rv => !(preserved.any (fun p => var_name_match rv.var p.1)))
    let scope := intm_rvars.map (fun rv => rv.var)
    let preservedSorted := sortPreserved rs.rvars preserved
    let rvars_kept := preservedSorted.map (fun p => p.1)
    let vars_rename := preservedSorted.map (fun p => p.2)
    let newRvars := rs.rvars.filter
      (fun rv => rvars_kept.any (fun r => var_name_match rv.var r))
    let rvars_removed := (rs.rvars.filter
      (fun rv => !rvars_kept.any (fun r => var_name_match rv.var r))).map (fun rv => rv.var)
    let init_args := st.dim_vars ++ vars_rename
    let init_vals := pr.identities
    let intm_name := func_name ++ "_intm"
    let smap := intm_rvars.map (fun rv => (rv.var, Expr.evar rv.var)) ++
                (rvars_kept.zip vars_rename).map
                  (fun p => (fullNameIn newRvars p.1, Expr.evar p.2))
    let update_args := rs.args.map (substMapE smap) ++ vars_rename.map Expr.evar
    let intm_preds := rs.predicates.map (substMapE smap)
    let f_preds := rs.predicates.filter (fun p => !usesAnyE scope p)
    let update_vals := rs.values.map
      (fun v => substSelfRefE func_name intm_name vars_rename (substMapE smap v))
    let intmStage0 : Stage :=
      { func_name := intm_name, dim_vars := init_args,
        definition := { is_init := false, args := update_args, values := update_vals,
                        predicates := intm_preds,
                        schedule := { dims := dims0, splits := splitsKept,
                                      rvars := intm_rvars,
                                      allow_race_conditions := false, atomic := false,
                                      override_atomic_associativity_test := false,
                                      fuse_level := none } } }
    let stMid : Stage :=
      { st with definition := { st.definition with
          args := rs.args, values := rs.values, predicates := f_preds,
          schedule := { st.definition.schedule with
              splits := splitsKept, rvars := newRvars } } }
    match purifyAll intmStage0 (rvars_kept.zip vars_rename) with
    | (some e, intmP) =>
        (some e, stMid, some { name := intm_name, init_args := init_args,
                               init_values := init_vals, update := intmP })
    | (none, intmP) =>
        let stMid2 := setDims stMid (addPureDims st.dim_vars stMid.dims)
        match removeAll stMid2 rvars_removed with
        | (some e, st') =>
            (some e, st', some { name := intm_name, init_args := init_args,
                                 init_values := init_vals, update := intmP })
        | (none, st') =>
            let f_store_args := st.dim_vars.map Expr.evar
            let f_load_args := f_store_args ++ newRvars.map (fun rv => Expr.evar rv.var)
            let n := rs.values.length
            let repl := buildRepl pr intm_name func_name f_load_args f_store_args n
            let f_values := (List.range n).map (fun i => substMapE repl (pr.ops.getD i .undefinedE))
            let stF := { st' with definition := { st'.definition with
                args := f_store_args, values := f_values } }
            (none, stF, some { name := intm_name, init_args := init_args,
                               init_values := init_vals, update := intmP })

end Sched

namespace Sched

/-- Modelled from the spec: the external prover's result for a single-value
addition update `f(...) = f(...) + g(...)` (§4.7 step 1, §8): associative and
commutative, identity element `0`, pattern `x + y` with accumulator operand
`x` and contribution operand `y`. -/
def plusProverResult : AssociativityProverResult :=
  { associative := true, commutative := true,
    identities := [.intImm 0],
    ops := [.add (.evar "x") (.evar "y")],
    xs := ["x"], ys := ["y"] }

def plusProver : ProverFn := fun _ _ _ => plusProverResult

/-- Modelled from the spec: a prover result certifying associativity but not
commutativity (the situation §4.7 step 2 and §8's subtract-accumulate example
describe), with the `x - y` pattern. -/
def subProverResult : AssociativityProverResult :=
  { associative := true, commutative := false,
    identities := [.intImm 0],
    ops := [.sub (.evar "x") (.evar "y")],
    xs := ["x"], ys := ["y"] }

def subProver : ProverFn := fun _ _ _ => subProverResult

/-- The concrete stage of the spec's rfactor test: `f(x) += h(x, r)` over
`r in [0,10)` (an update definition with one impure reduction dimension, its
pure var and the `__outermost` marker dimension). -/
def stC1 : Stage :=
  { func_name := "f", dim_vars := ["x"],
    definition :=
      { is_init := false,
        args := [.evar "x"],
        values := [.add (.call "f" (.cons (.evar "x") .nil) 0)
                        (.call "h" (.cons (.evar "x") (.cons (.evar "r") .nil)) 0)],
        predicates := [],
        schedule := { dims := [⟨"r", .Serial, .noneAPI, .ImpureRVar⟩,
                               ⟨"x", .Serial, .noneAPI, .PureVar⟩,
                               ⟨"__outermost", .Serial, .noneAPI, .PureVar⟩],
                      splits := [], rvars := [⟨"r", .intImm 0, .intImm 10⟩],
                      allow_race_conditions := false, atomic := false,
                      override_atomic_associativity_test := false, fuse_level := none } } }

/-- The original stage after `rfactor({})`: update rewritten in place to
`f(x) += f_intm(x)` with an empty reduction domain and the lifted dimension
removed. -/
def stC1After : Stage :=
  { func_name := "f", dim_vars := ["x"],
    definition :=
      { is_init := false,
        args := [.evar "x"],
        values := [.add (.call "f" (.cons (.evar "x") .nil) 0)
                        (.call "f_intm" (.cons (.evar "x") .nil) 0)],
        predicates := [],
        schedule := { dims := [⟨"x", .Serial, .noneAPI, .PureVar⟩,
                               ⟨"__outermost", .Serial, .noneAPI, .PureVar⟩],
                      splits := [], rvars := [],
                      allow_race_conditions := false, atomic := false,
                      override_atomic_associativity_test := false, fuse_level := none } } }

/-- The intermediate function `rfactor({})` synthesizes for `stC1`: init
`f_intm(x) = 0`, update `f_intm(x) += h(x, r)` over `r in [0,10)`. -/
def intmC1 : IntmFunc :=
  { name := "f_intm", init_args := ["x"], init_values := [.intImm 0],
    update :=
      { func_name := "f_intm", dim_vars := ["x"],
        definition :=
          { is_init := false,
            args := [.evar "x"],
            values := [.add (.call "f_intm" (.cons (.evar "x") .nil) 0)
                            (.call "h" (.cons (.evar "x") (.cons (.evar "r") .nil)) 0)],
            predicates := [],
            schedule := { dims := [⟨"r", .Serial, .noneAPI, .ImpureRVar⟩,
                                   ⟨"x", .Serial, .noneAPI, .PureVar⟩,
                                   ⟨"__outermost", .Serial, .noneAPI, .PureVar⟩],
                          splits := [], rvars := [⟨"r", .intImm 0, .intImm 10⟩],
                          allow_race_conditions := false, atomic := false,
                          override_atomic_associativity_test := false,
                          fuse_level := none } } } }

/-- C1: for a stage `f(x)` with reduction domain `r in [0,10)` and single
update `f(x) += h(x, r)`, `rfactor` with an empty preserved list succeeds and
produces an intermediate `f_intm` whose init definition has arguments equal to
the original pure arguments with value the prover's identity element (`0` for
`+`), whose update definition computes `f_intm(x) += h(x, r)` over the same
domain `r in [0,10)`, and rewrites the original stage's update in place to
`f(x) += f_intm(x)` with an empty reduction domain (args collapse to the pure
args; the value is the combining-op pattern `x + y` with the accumulator
substituted by the self-load `f(x)` and the contribution by the call
`f_intm(x)`). -/
theorem c1_rfactor_concrete :
    Stage.rfactor plusProver stC1 [] = (none, stC1After, some intmC1) := rfl

/-- C10: `atomic(override)` and `allow_race_conditions()` always succeed
(they are total functions performing no validation) and modify only the
corresponding flags of the stage's schedule; the Dimension List, Split
History, Reduction Domain, fuse level, definition expressions and identity of
the stage are untouched. -/
theorem c10_atomic_allow_race_frame (st : Stage) (b : Bool) :
    (Stage.atomic st b).definition.schedule.atomic = true ∧
    (Stage.atomic st b).definition.schedule.override_atomic_associativity_test = b ∧
    (Stage.atomic st b).definition.schedule.allow_race_conditions
      = st.definition.schedule.allow_race_conditions ∧
    (Stage.atomic st b).dims = st.dims ∧
    (Stage.atomic st b).splits = st.splits ∧
    (Stage.atomic st b).rvars = st.rvars ∧
    (Stage.atomic st b).definition.schedule.fuse_level
      = st.definition.schedule.fuse_level ∧
    (Stage.atomic st b).definition.args = st.definition.args ∧
    (Stage.atomic st b).definition.values = st.definition.values ∧
    (Stage.atomic st b).definition.predicates = st.definition.predicates ∧
    (Stage.atomic st b).definition.is_init = st.definition.is_init ∧
    (Stage.atomic st b).func_name = st.func_name ∧
    (Stage.atomic st b).dim_vars = st.dim_vars ∧
    (Stage.allow_race_conditions st).definition.schedule.allow_race_conditions = true ∧
    (Stage.allow_race_conditions st).definition.schedule.atomic
      = st.definition.schedule.atomic ∧
    (Stage.allow_race_conditions st).definition.schedule.override_atomic_associativity_test
      = st.definition.schedule.override_atomic_associativity_test ∧
    (Stage.allow_race_conditions st).dims = st.dims ∧
    (Stage.allow_race_conditions st).splits = st.splits ∧
    (Stage.allow_race_conditions st).rvars = st.rvars ∧
    (Stage.allow_race_conditions st).definition.schedule.fuse_level
      = st.definition.schedule.fuse_level ∧
    (Stage.allow_race_conditions st).definition.args = st.definition.args ∧
    (Stage.allow_race_conditions st).definition.values = st.definition.values ∧
    (Stage.allow_race_conditions st).definition.predicates = st.definition.predicates ∧
    (Stage.allow_race_conditions st).definition.is_init = st.definition.is_init ∧
    (Stage.allow_race_conditions st).func_name = st.func_name ∧
    (Stage.allow_race_conditions st).dim_vars = st.dim_vars :=
  ⟨rfl, rfl, rfl, rfl, rfl, rfl, rfl, rfl, rfl, rfl, rfl, rfl, rfl,
   rfl, rfl, rfl, rfl, rfl, rfl, rfl, rfl, rfl, rfl, rfl, rfl, rfl⟩

end Sched

namespace Sched

/-- The race-gated stage of the spec's example: update `f(r) += g(r)` over a
single impure reduction dimension `r`, no flags set. -/
def stC3 : Stage :=
  { func_name := "f", dim_vars := ["x"],
    definition :=
      { is_init := false,
        args := [.evar "r"],
        values := [.add (.call "f" (.cons (.evar "r") .nil) 0)
                        (.call "g" (.cons (.evar "r") .nil) 0)],
        predicates := [],
        schedule := { dims := [⟨"r", .Serial, .noneAPI, .ImpureRVar⟩,
                               ⟨"__outermost", .Serial, .noneAPI, .PureVar⟩],
                      splits := [], rvars := [⟨"r", .intImm 0, .intImm 10⟩],
                      allow_race_conditions := false, atomic := false,
                      override_atomic_associativity_test := false, fuse_level := none } } }

lemma raceGateErr_none_iff (sch : StageSchedule) (pr : AssociativityProverResult) (v : String) :
    raceGateErr sch pr v = none ↔
      (sch.allow_race_conditions = true ∨
       (sch.atomic = true ∧
        (sch.override_atomic_associativity_test = true ∨ pr.associative = true))) := by
  unfold raceGateErr
  cases h1 : sch.allow_race_conditions <;>
    cases h2 : sch.atomic <;>
      cases h3 : sch.override_atomic_associativity_test <;>
        cases h4 : pr.associative <;> simp [h1, h2, h3, h4]

lemma set_dim_type_go_spec (sch : StageSchedule) (pr : AssociativityProverResult)
    (v : String) (t : ForType) (dims : List Dim)
    (himp : ∀ d ∈ dims, var_name_match d.var v = true → d.is_pure = false)
    (hvec : ∀ d ∈ dims, var_name_match d.var v = false →
            ¬(t = .Vectorized ∧ d.for_type = .Vectorized))
    (hpar : is_parallel t = true) :
    (set_dim_type_go sch pr v true t dims).1
      = (if dims.any (fun d => var_name_match d.var v) then raceGateErr sch pr v else none) ∧
    (set_dim_type_go sch pr v true t dims).2.2
      = dims.any (fun d => var_name_match d.var v) := by
  induction dims with
  | nil => simp [set_dim_type_go]
  | cons d rest ih =>
      have himpd := himp d (List.mem_cons_self d rest)
      have hvecd := hvec d (List.mem_cons_self d rest)
      have ih' := ih (fun d' hd' => himp d' (List.mem_cons_of_mem _ hd'))
                     (fun d' hd' => hvec d' (List.mem_cons_of_mem _ hd'))
      by_cases hm : var_name_match d.var v = true
      · have hpure : d.is_pure = false := himpd hm
        have hpure' : ({ d with for_type := t } : Dim).is_pure = false := hpure
        cases hr : raceGateErr sch pr v with
        | some e =>
            simp [set_dim_type_go, hm, hpure', hpar, hr, List.any_cons]
        | none =>
            simp [set_dim_type_go, hm, hpure', hpar, hr, List.any_cons, ih'.1, ih'.2]
      · have hm' : var_name_match d.var v = false := by
          cases h : var_name_match d.var v
          · rfl
          · exact absurd h hm
        have hnv : ¬(t = .Vectorized ∧ d.for_type = .Vectorized) := hvecd hm'
        have hnv' : (t = ForType.Vectorized && d.for_type = ForType.Vectorized) = false := by
          cases h1 : decide (t = ForType.Vectorized) <;>
            cases h2 : decide (d.for_type = ForType.Vectorized) <;>
              simp_all
        simp [set_dim_type_go, hm', hnv', List.any_cons, ih'.1, ih'.2]

/-- C3 amended: marking a dimension whose matches are all impure reduction
dimensions with a parallel `ForType` succeeds iff `allow_race_conditions` is
set, or `atomic` is set and (the override flag is set or the prover certifies
associativity).  The prover certifying associativity on its own, with neither
flag, does not authorize the marking. -/
theorem c3_amended_race_gate (prover : ProverFn) (st : Stage) (v : String) (t : ForType)
    (hpar : is_parallel t = true)
    (hfound : st.definition.schedule.dims.any (fun d => var_name_match d.var v) = true)
    (himp : ∀ d ∈ st.definition.schedule.dims,
            var_name_match d.var v = true → d.is_pure = false)
    (hvec : ∀ d ∈ st.definition.schedule.dims, var_name_match d.var v = false →
            ¬(t = .Vectorized ∧ d.for_type = .Vectorized)) :
    ((Stage.set_dim_type prover st v true t).1 = none ↔
      (st.definition.schedule.allow_race_conditions = true ∨
       (st.definition.schedule.atomic = true ∧
        (st.definition.schedule.override_atomic_associativity_test = true ∨
         (prover st.func_name st.definition.args st.definition.values).associative = true)))) := by
  have hs := set_dim_type_go_spec st.definition.schedule
    (prover st.func_name st.definition.args st.definition.values) v t
    st.definition.schedule.dims himp hvec hpar
  rw [hfound] at hs
  rw [if_pos rfl] at hs
  rw [← raceGateErr_none_iff st.definition.schedule
        (prover st.func_name st.definition.args st.definition.values) v]
  unfold Stage.set_dim_type
  dsimp only
  rw [hs.1, hs.2]
  cases hr : raceGateErr st.definition.schedule
      (prover st.func_name st.definition.args st.definition.values) v with
  | some e => simp [hr]
  | none => simp [hr]

/-- C3 counterexample: on `f(r) += g(r)` with no flags, the prover certifies
`+` associative, yet `parallel(r)` raises the race-condition error naming
`r` — the prover alone is not one of the accepted authorizations, refuting
the claim's iff. -/
theorem c3_counterexample :
    plusProverResult.associative = true ∧
    stC3.definition.schedule.allow_race_conditions = false ∧
    stC3.definition.schedule.atomic = false ∧
    (Stage.parallel plusProver stC3 "r" true).1 = some (.raceCondition "r") :=
  ⟨rfl, rfl, rfl, rfl⟩

/-- C3 witness: `atomic()` followed by `parallel(r)` succeeds when the prover
certifies `+` associative. -/
theorem c3_amended_witness :
    (Stage.set_dim_type plusProver (Stage.atomic stC3 false) "r" true .Parallel).1 = none :=
  (c3_amended_race_gate plusProver (Stage.atomic stC3 false) "r" .Parallel rfl rfl
      (by decide) (by decide)).mpr (Or.inr ⟨rfl, Or.inr rfl⟩)

/-- A stage for exercising split failures: update definition over the impure
reduction dimension `r`. -/
def stC5 : Stage :=
  { func_name := "f", dim_vars := ["x"],
    definition :=
      { is_init := false,
        args := [.evar "r"], values := [.intImm 0], predicates := [],
        schedule := { dims := [⟨"r", .Serial, .noneAPI, .ImpureRVar⟩,
                               ⟨"__outermost", .Serial, .noneAPI, .PureVar⟩],
                      splits := [], rvars := [⟨"r", .intImm 0, .intImm 10⟩],
                      allow_race_conditions := false, atomic := false,
                      override_atomic_associativity_test := false, fuse_level := none } } }

lemma split_core_err_splits (canProve : Expr → Expr → Bool) (dims0 : List Dim)
    (splits0 : List Split) (is_init : Bool) (old outerN innerN : String)
    (factor : Expr) (exact : Bool) (tail : TailStrategy)
    (h : (split_core canProve dims0 splits0 is_init old outerN innerN factor exact tail).1 ≠ none) :
    (split_core canProve dims0 splits0 is_init old outerN innerN factor exact tail).2.2
      = splits0 := by
  revert h
  dsimp only [split_core]
  repeat' split
  all_goals first
    | exact fun _ => rfl
    | exact fun h => absurd rfl h

/-- C5 counterexample: a split failing its tail-strategy validation (exact
RVar split with explicit `RoundUp`) has already replaced the dimension being
split in the Dimension List, and `set_dim_type` failing its race check has
already set the matching dimension's `for_type` — both failures leave the
visible Dimension List mutated, refuting the claim. -/
theorem c5_counterexample :
    (Stage.splitVoR (fun _ _ => false) stC5 ("r", true) ("ro", true) ("ri", true)
        (.intImm 4) .RoundUp).1 = some .exactTailNotGuard ∧
    (Stage.splitVoR (fun _ _ => false) stC5 ("r", true) ("ro", true) ("ri", true)
        (.intImm 4) .RoundUp).2.dims
      = [⟨"r.ri", .Serial, .noneAPI, .ImpureRVar⟩,
         ⟨"r.ro", .Serial, .noneAPI, .ImpureRVar⟩,
         ⟨"__outermost", .Serial, .noneAPI, .PureVar⟩] ∧
    (Stage.splitVoR (fun _ _ => false) stC5 ("r", true) ("ro", true) ("ri", true)
        (.intImm 4) .RoundUp).2.dims ≠ stC5.dims ∧
    (Stage.parallel plusProver stC3 "r" true).1 = some (.raceCondition "r") ∧
    (Stage.parallel plusProver stC3 "r" true).2.dims
      = [⟨"r", .Parallel, .noneAPI, .ImpureRVar⟩,
         ⟨"__outermost", .Serial, .noneAPI, .PureVar⟩] ∧
    (Stage.parallel plusProver stC3 "r" true).2.dims ≠ stC3.dims :=
  ⟨rfl, rfl, by decide, rfl, rfl, by decide⟩

/-- C5 amended: a failing `split` leaves the Split History, the Reduction
Domain, the definition's expressions and the schedule flags unchanged (only
the Dimension List may already hold the replaced dimensions), and
`set_dim_type` never touches anything but the Dimension List, whether it
fails or not. -/
theorem c5_amended_failure_frame (canProve : Expr → Expr → Bool) (prover : ProverFn)
    (st st2 : Stage) (old outerN innerN : String) (factor : Expr) (exact : Bool)
    (tail : TailStrategy) (v : String) (isRvar : Bool) (t : ForType)
    (hfail : (Stage.split canProve st old outerN innerN factor exact tail).1 ≠ none) :
    ((Stage.split canProve st old outerN innerN factor exact tail).2.splits = st.splits ∧
     (Stage.split canProve st old outerN innerN factor exact tail).2.rvars = st.rvars ∧
     (Stage.split canProve st old outerN innerN factor exact tail).2.definition.args
       = st.definition.args ∧
     (Stage.split canProve st old outerN innerN factor exact tail).2.definition.values
       = st.definition.values ∧
     (Stage.split canProve st old outerN innerN factor exact tail).2.definition.predicates
       = st.definition.predicates ∧
     (Stage.split canProve st old outerN innerN factor exact
         tail).2.definition.schedule.allow_race_conditions
       = st.definition.schedule.allow_race_conditions ∧
     (Stage.split canProve st old outerN innerN factor exact
         tail).2.definition.schedule.atomic = st.definition.schedule.atomic) ∧
    ((Stage.set_dim_type prover st2 v isRvar t).2.splits = st2.splits ∧
     (Stage.set_dim_type prover st2 v isRvar t).2.rvars = st2.rvars ∧
     (Stage.set_dim_type prover st2 v isRvar t).2.definition.args = st2.definition.args ∧
     (Stage.set_dim_type prover st2 v isRvar t).2.definition.values
       = st2.definition.values ∧
     (Stage.set_dim_type prover st2 v isRvar t).2.definition.predicates
       = st2.definition.predicates ∧
     (Stage.set_dim_type prover st2 v isRvar
         t).2.definition.schedule.allow_race_conditions
       = st2.definition.schedule.allow_race_conditions ∧
     (Stage.set_dim_type prover st2 v isRvar t).2.definition.schedule.atomic
       = st2.definition.schedule.atomic) :=
  ⟨⟨split_core_err_splits canProve st.definition.schedule.dims
      st.definition.schedule.splits st.definition.is_init old outerN innerN
      factor exact tail hfail, rfl, rfl, rfl, rfl, rfl, rfl⟩,
   rfl, rfl, rfl, rfl, rfl, rfl, rfl⟩

/-- C5 amended witness: the concrete failing split of the counterexample
leaves Split History, Reduction Domain, expressions and flags unchanged. -/
theorem c5_amended_witness :
    ((Stage.split (fun _ _ => false) stC5 "r" "ro" "ri" (.intImm 4) true .RoundUp).2.splits
        = stC5.splits ∧
      (Stage.split (fun _ _ => false) stC5 "r" "ro" "ri" (.intImm 4) true
          .RoundUp).2.rvars = stC5.rvars ∧
      (Stage.split (fun _ _ => false) stC5 "r" "ro" "ri" (.intImm 4) true
          .RoundUp).2.definition.args = stC5.definition.args ∧
      (Stage.split (fun _ _ => false) stC5 "r" "ro" "ri" (.intImm 4) true
          .RoundUp).2.definition.values = stC5.definition.values ∧
      (Stage.split (fun _ _ => false) stC5 "r" "ro" "ri" (.intImm 4) true
          .RoundUp).2.definition.predicates = stC5.definition.predicates ∧
      (Stage.split (fun _ _ => false) stC5 "r" "ro" "ri" (.intImm 4) true
          .RoundUp).2.definition.schedule.allow_race_conditions
        = stC5.definition.schedule.allow_race_conditions ∧
      (Stage.split (fun _ _ => false) stC5 "r" "ro" "ri" (.intImm 4) true
          .RoundUp).2.definition.schedule.atomic
        = stC5.definition.schedule.atomic) ∧
    ((Stage.set_dim_type plusProver stC3 "r" true .Parallel).2.splits = stC3.splits ∧
      (Stage.set_dim_type plusProver stC3 "r" true .Parallel).2.rvars = stC3.rvars ∧
      (Stage.set_dim_type plusProver stC3 "r" true .Parallel).2.definition.args
        = stC3.definition.args ∧
      (Stage.set_dim_type plusProver stC3 "r" true .Parallel).2.definition.values
        = stC3.definition.values ∧
      (Stage.set_dim_type plusProver stC3 "r" true .Parallel).2.definition.predicates
        = stC3.definition.predicates ∧
      (Stage.set_dim_type plusProver stC3 "r" true
          .Parallel).2.definition.schedule.allow_race_conditions
        = stC3.definition.schedule.allow_race_conditions ∧
      (Stage.set_dim_type plusProver stC3 "r" true .Parallel).2.definition.schedule.atomic
        = stC3.definition.schedule.atomic) :=
  c5_amended_failure_frame (fun _ _ => false) plusProver stC5 stC3 "r" "ro" "ri"
    (.intImm 4) true .RoundUp "r" true .Parallel (by decide)

end Sched

namespace Sched

/-- An init (base-case) definition stage with empty Split History. -/
def stC6 : Stage :=
  { func_name := "f", dim_vars := ["x"],
    definition :=
      { is_init := true,
        args := [.evar "x"], values := [.intImm 0], predicates := [],
        schedule := { dims := [⟨"x", .Serial, .noneAPI, .PureVar⟩,
                               ⟨"__outermost", .Serial, .noneAPI, .PureVar⟩],
                      splits := [], rvars := [],
                      allow_race_conditions := false, atomic := false,
                      override_atomic_associativity_test := false, fuse_level := none } } }

/-- C6: on an init (base-case) definition, a split with `tail = Auto` (not
exact) that passes the name checks succeeds, and the recorded tail strategy
is `RoundUp` exactly when the dimension is dominated by an earlier
`ShiftInwards` split whose recorded factor is provably at least the new
factor (the `descends_from_shiftinwards_outer` walk of the Split History);
otherwise it is `ShiftInwards`. -/
theorem c6_split_auto_init_tail (canProve : Expr → Expr → Bool) (st : Stage)
    (old outerN innerN : String) (factor : Expr) (old_name : String) (dims' : List Dim)
    (hInit : st.definition.is_init = true)
    (hscan : collisionScanGo old outerN innerN st.definition.schedule.dims = none)
    (hfind : splitFindReplace old outerN innerN st.definition.schedule.dims
               = some (old_name, dims')) :
    Stage.split canProve st old outerN innerN factor false .Auto
      = (none, setSplits (setDims st dims')
          (st.definition.schedule.splits ++
            [{ old_var := old_name, outer := old_name ++ "." ++ outerN,
               inner := old_name ++ "." ++ innerN, factor := factor, exact := false,
               tail := match lookupSub
                         (descends_from_shiftinwards_outer st.definition.schedule.splits)
                         old_name with
                       | some f2 => if canProve f2 factor then .RoundUp
                                    else .ShiftInwards
                       | none => .ShiftInwards,
               split_type := .SplitVar }])) := by
  unfold Stage.split split_core resolve_tail_auto
  simp only [hscan, hfind, hInit]
  simp

/-- C6 witness: `split(x, xo, xi, 8)` with `tail = Auto` on an init
definition with empty Split History resolves to `ShiftInwards`. -/
theorem c6_witness :
    Stage.split (fun _ _ => false) stC6 "x" "xo" "xi" (.intImm 8) false .Auto
      = (none, setSplits (setDims stC6
            [⟨"x.xi", .Serial, .noneAPI, .PureVar⟩,
             ⟨"x.xo", .Serial, .noneAPI, .PureVar⟩,
             ⟨"__outermost", .Serial, .noneAPI, .PureVar⟩])
          [{ old_var := "x", outer := "x.xo", inner := "x.xi",
             factor := .intImm 8, exact := false, tail := .ShiftInwards,
             split_type := .SplitVar }]) :=
  c6_split_auto_init_tail (fun _ _ => false) stC6 "x" "xo" "xi" (.intImm 8) "x"
    [⟨"x.xi", .Serial, .noneAPI, .PureVar⟩,
     ⟨"x.xo", .Serial, .noneAPI, .PureVar⟩,
     ⟨"__outermost", .Serial, .noneAPI, .PureVar⟩] rfl rfl rfl

lemma collisionScan_some_iff (old outerN innerN : String) (dims : List Dim) :
    (∃ m, collisionScanGo old outerN innerN dims = some m) ↔
      ∃ d ∈ dims, (var_name_match d.var innerN = true ∧ innerN ≠ old) ∨
                  (var_name_match d.var outerN = true ∧ outerN ≠ old) := by
  induction dims with
  | nil => simp [collisionScanGo]
  | cons d rest ih =>
      simp only [collisionScanGo, List.mem_cons]
      by_cases h1 : (var_name_match d.var innerN && decide (innerN ≠ old)) = true
      · rw [if_pos h1]
        simp only [Bool.and_eq_true, decide_eq_true_eq] at h1
        constructor
        · intro _
          exact ⟨d, Or.inl rfl, Or.inl ⟨h1.1, h1.2⟩⟩
        · intro _
          exact ⟨innerN, rfl⟩
      · rw [if_neg h1]
        by_cases h2 : (var_name_match d.var outerN && decide (outerN ≠ old)) = true
        · rw [if_pos h2]
          simp only [Bool.and_eq_true, decide_eq_true_eq] at h2
          constructor
          · intro _
            exact ⟨d, Or.inl rfl, Or.inr ⟨h2.1, h2.2⟩⟩
          · intro _
            exact ⟨outerN, rfl⟩
        · rw [if_neg h2]
          simp only [Bool.and_eq_true, decide_eq_true_eq, not_and] at h1 h2
          rw [ih]
          constructor
          · intro ⟨d', hd', hp⟩
            exact ⟨d', Or.inr hd', hp⟩
          · rintro ⟨d', hd' | hd', hp⟩
            · subst hd'
              rcases hp with ⟨ha, hb⟩ | ⟨ha, hb⟩
              · exact absurd hb (by simpa [ha] using h1)
              · exact absurd hb (by simpa [ha] using h2)
            · exact ⟨d', hd', hp⟩

lemma split_core_err_cases (canProve : Expr → Expr → Bool) (dims0 : List Dim)
    (splits0 : List Split) (is_init : Bool) (old outerN innerN : String)
    (factor : Expr) (exact : Bool) (tail : TailStrategy) :
    (split_core canProve dims0 splits0 is_init old outerN innerN factor exact tail).1 = none ∨
    (∃ n, (split_core canProve dims0 splits0 is_init old outerN innerN factor exact tail).1
            = some (.nameCollision n) ∧
          collisionScanGo old outerN innerN dims0 = some n) ∨
    (split_core canProve dims0 splits0 is_init old outerN innerN factor exact tail).1
      = some (.dimNotFound old) ∨
    (split_core canProve dims0 splits0 is_init old outerN innerN factor exact tail).1
      = some .roundUpForbidden ∨
    (split_core canProve dims0 splits0 is_init old outerN innerN factor exact tail).1
      = some .shiftInwardsOnUpdate ∨
    (split_core canProve dims0 splits0 is_init old outerN innerN factor exact tail).1
      = some .exactTailNotGuard := by
  dsimp only [split_core]
  cases hscan : collisionScanGo old outerN innerN dims0 with
  | some n => exact Or.inr (Or.inl ⟨n, rfl, rfl⟩)
  | none =>
      dsimp only
      cases hfind : splitFindReplace old outerN innerN dims0 with
      | none => exact Or.inr (Or.inr (Or.inl rfl))
      | some p =>
          obtain ⟨old_name, dims'⟩ := p
          dsimp only
          repeat' split
          all_goals first
            | exact Or.inl rfl
            | exact Or.inr (Or.inr (Or.inr (Or.inl rfl)))
            | exact Or.inr (Or.inr (Or.inr (Or.inr (Or.inl rfl))))
            | exact Or.inr (Or.inr (Or.inr (Or.inr (Or.inr rfl))))

lemma split_core_collision_iff (canProve : Expr → Expr → Bool) (dims0 : List Dim)
    (splits0 : List Split) (is_init : Bool) (old outerN innerN : String)
    (factor : Expr) (exact : Bool) (tail : TailStrategy) (m : String) :
    (split_core canProve dims0 splits0 is_init old outerN innerN factor exact tail).1
        = some (.nameCollision m) ↔
      collisionScanGo old outerN innerN dims0 = some m := by
  constructor
  · intro h
    rcases split_core_err_cases canProve dims0 splits0 is_init old outerN innerN
        factor exact tail with h0 | ⟨n, hn, hsc⟩ | h0 | h0 | h0 | h0 <;>
      [skip; skip; skip; skip; skip; skip] <;> first
      | (rw [h0] at h; simp at h)
      | (rw [hn] at h
         have : n = m := by injection h with h'; injection h'
         rw [← this]
         exact hsc)
  · intro h
    dsimp only [split_core]
    rw [h]

lemma purify_no_collision (st : Stage) (o n : String × Bool) (m : String) :
    (Stage.purify st o n).1 ≠ some (.nameCollision m) := by
  unfold Stage.purify
  repeat' split <;> simp

/-- C8 amended: `split` (and hence `tile`) raises the name-collision error
exactly when the outer or inner new name suffix-matches an existing dimension
and differs from the split dimension's name; `purify`, by contrast, performs
no collision check at all, so a colliding replacement name silently creates a
duplicate dimension name (`c8_counterexample`). -/
theorem c8_amended_name_collision (canProve : Expr → Expr → Bool) (st : Stage)
    (old outerN innerN : String) (factor : Expr) (exact : Bool)
    (tail : TailStrategy) (o n : String × Bool) :
    ((∃ m, (Stage.split canProve st old outerN innerN factor exact tail).1
        = some (.nameCollision m)) ↔
      ∃ d ∈ st.definition.schedule.dims,
        (var_name_match d.var innerN = true ∧ innerN ≠ old) ∨
        (var_name_match d.var outerN = true ∧ outerN ≠ old)) ∧
    (∀ m, (Stage.purify st o n).1 ≠ some (.nameCollision m)) := by
  constructor
  · rw [← collisionScan_some_iff old outerN innerN st.definition.schedule.dims]
    constructor
    · intro ⟨m, hm⟩
      exact ⟨m, (split_core_collision_iff canProve st.definition.schedule.dims
        st.definition.schedule.splits st.definition.is_init old outerN innerN
        factor exact tail m).mp hm⟩
    · intro ⟨m, hm⟩
      exact ⟨m, (split_core_collision_iff canProve st.definition.schedule.dims
        st.definition.schedule.splits st.definition.is_init old outerN innerN
        factor exact tail m).mpr hm⟩
  · exact purify_no_collision st o n

/-- A stage with an impure reduction dimension `r` and a pure dimension `x`,
for demonstrating purify's missing collision check. -/
def stC8 : Stage :=
  { func_name := "f", dim_vars := ["x"],
    definition :=
      { is_init := false,
        args := [.evar "x"], values := [.intImm 0], predicates := [],
        schedule := { dims := [⟨"r", .Serial, .noneAPI, .ImpureRVar⟩,
                               ⟨"x", .Serial, .noneAPI, .PureVar⟩,
                               ⟨"__outermost", .Serial, .noneAPI, .PureVar⟩],
                      splits := [], rvars := [⟨"r", .intImm 0, .intImm 10⟩],
                      allow_race_conditions := false, atomic := false,
                      override_atomic_associativity_test := false, fuse_level := none } } }

/-- C8 counterexample: `purify(r, x)` with `x` already a dimension succeeds
without any error and leaves two dimensions named `x` in the Dimension List —
no name-collision error is raised, refuting the claim for purify. -/
theorem c8_counterexample :
    (Stage.purify stC8 ("r", true) ("x", false)).1 = none ∧
    ((Stage.purify stC8 ("r", true) ("x", false)).2.dims.map (fun d => d.var))
      = ["x", "x", "__outermost"] :=
  ⟨rfl, rfl⟩

lemma resolve_tail_auto_exact (canProve : Expr → Expr → Bool) (splits0 : List Split)
    (is_init : Bool) (old_name : String) (factor : Expr) (round_up_ok : Bool)
    (tail : TailStrategy) :
    resolve_tail_auto canProve splits0 is_init old_name factor true round_up_ok tail
      = if tail = .Auto then .GuardWithIf else tail := by
  unfold resolve_tail_auto
  split <;> rfl

lemma split_core_exact_success (canProve : Expr → Expr → Bool) (dims0 : List Dim)
    (splits0 : List Split) (is_init : Bool) (old outerN innerN : String)
    (factor : Expr) (tail : TailStrategy)
    (h : (split_core canProve dims0 splits0 is_init old outerN innerN factor true tail).1
          = none) :
    (tail = .GuardWithIf ∨ tail = .Auto) ∧
    ∃ old_name,
      (split_core canProve dims0 splits0 is_init old outerN innerN factor true tail).2.2
        = splits0 ++ [{ old_var := old_name, outer := old_name ++ "." ++ outerN,
                        inner := old_name ++ "." ++ innerN, factor := factor,
                        exact := true, tail := .GuardWithIf,
                        split_type := .SplitVar }] := by
  revert h
  dsimp only [split_core]
  cases hscan : collisionScanGo old outerN innerN dims0 with
  | some n => intro h; exact absurd h (by simp)
  | none =>
      dsimp only
      cases hfind : splitFindReplace old outerN innerN dims0 with
      | none => intro h; exact absurd h (by simp)
      | some p =>
          obtain ⟨old_name, dims'⟩ := p
          dsimp only
          rw [resolve_tail_auto_exact]
          simp only [Bool.not_true, Bool.false_and]
          rw [if_neg (show ¬((false : Bool) = true) by decide)]
          by_cases ha : tail = TailStrategy.Auto
          · rw [if_pos ha]
            intro _
            refine ⟨Or.inr ha, old_name, ?_⟩
            simp
          · rw [if_neg ha]
            split
            next => intro h; exact absurd h (by simp)
            next =>
              split
              next => intro h; exact absurd h (by simp)
              next h3 =>
                intro _
                have htl : tail = TailStrategy.GuardWithIf := by
                  simpa using h3
                subst htl
                exact ⟨Or.inl rfl, old_name, rfl⟩

/-- C9: the public `split` overload on an RVar requires RVar outer and inner
names (mixing with pure Vars is rejected), performs the split in exact mode,
and a successful exact split can only have requested tail `GuardWithIf` or
`Auto`, with the recorded history entry carrying `exact = true` and resolved
tail strategy `GuardWithIf`. -/
theorem c9_split_rvar_exact (canProve : Expr → Expr → Bool) (st : Stage)
    (oldN outerN innerN : String) (oR iR : Bool) (factor : Expr)
    (tail : TailStrategy) :
    ((oR = false ∨ iR = false) →
      (Stage.splitVoR canProve st (oldN, true) (outerN, oR) (innerN, iR) factor tail).1
        = some .mixedVarKinds) ∧
    ((Stage.splitVoR canProve st (oldN, true) (outerN, true) (innerN, true) factor
        tail).1 = none →
      (tail = .GuardWithIf ∨ tail = .Auto) ∧
      ∃ old_name,
        (Stage.splitVoR canProve st (oldN, true) (outerN, true) (innerN, true) factor
            tail).2.splits
          = st.splits ++
            [{ old_var := old_name, outer := old_name ++ "." ++ outerN,
               inner := old_name ++ "." ++ innerN, factor := factor,
               exact := true, tail := .GuardWithIf, split_type := .SplitVar }]) := by
  constructor
  · rintro (h | h)
    · subst h
      simp [Stage.splitVoR]
    · subst h
      cases oR <;> simp [Stage.splitVoR]
  · intro h
    exact split_core_exact_success canProve st.definition.schedule.dims
      st.definition.schedule.splits st.definition.is_init oldN outerN innerN
      factor tail h

/-- C9 witness: an exact RVar split with `tail = Auto` succeeds and records a
`GuardWithIf` exact history entry. -/
theorem c9_witness :
    (TailStrategy.Auto = TailStrategy.GuardWithIf ∨ TailStrategy.Auto = TailStrategy.Auto) ∧
    ∃ old_name,
      (Stage.splitVoR (fun _ _ => false) stC5 ("r", true) ("ro", true) ("ri", true)
          (.intImm 4) .Auto).2.splits
        = stC5.splits ++
          [{ old_var := old_name, outer := old_name ++ "." ++ "ro",
             inner := old_name ++ "." ++ "ri", factor := .intImm 4,
             exact := true, tail := .GuardWithIf, split_type := .SplitVar }] :=
  (c9_split_rvar_exact (fun _ _ => false) stC5 "r" "ro" "ri" true true
    (.intImm 4) .Auto).2 rfl

end Sched

namespace Sched

/-- An init-definition stage with pure dimensions `v`, `y` and a reduction
variable `r`, for the split/fuse round trip. -/
def stC7 : Stage :=
  { func_name := "f", dim_vars := ["v", "y"],
    definition :=
      { is_init := true,
        args := [.evar "v", .evar "y"], values := [.intImm 0], predicates := [],
        schedule := { dims := [⟨"v", .Serial, .noneAPI, .PureVar⟩,
                               ⟨"y", .Serial, .noneAPI, .PureVar⟩,
                               ⟨"__outermost", .Serial, .noneAPI, .PureVar⟩],
                      splits := [], rvars := [⟨"r", .intImm 0, .intImm 7⟩],
                      allow_race_conditions := false, atomic := false,
                      override_atomic_associativity_test := false, fuse_level := none } } }

/-- `split(v, vo, vi, f)` on `stC7`. -/
def c7Split (f : Int) : Option SchedErr × Stage :=
  Stage.split (fun _ _ => false) stC7 "v" "vo" "vi" (.intImm f) false .Auto

/-- `fuse(vi, vo, v)` after the split. -/
def c7Fuse (f : Int) : Option SchedErr × Stage :=
  Stage.fuse (c7Split f).2 ("vi", false) ("vo", false) ("v", false)

/-- Replay of the two appended history entries over the loop domain
`[0, E)` of the split variable, using the engine's own reduction-variable
bound computation (`apply_split`/`apply_fuse`). -/
def c7Replay (E f : Int) : List Split × RDomState :=
  replaySplits (c7Fuse f).2.splits
    { rvars := [⟨"v", .intImm 0, .intImm E⟩], predicates := [], args := [], values := [] }

lemma fdiv_round_trip (E f : Int) (hf : 0 < f) (hdvd : f ∣ E) :
    (E - 1 + f).fdiv f * f = E := by
  obtain ⟨k, rfl⟩ := hdvd
  rw [Int.fdiv_eq_ediv _ hf.le]
  have h1 : f * k - 1 + f = f - 1 + f * k := by ring
  rw [h1, Int.add_mul_ediv_left _ _ hf.ne']
  rw [Int.ediv_eq_zero_of_lt (by omega) (by omega)]
  ring

/-- C7: for the pure variable `v` with extent `E` and a factor `f ≤ E`
dividing `E` evenly, `split(v, vo, vi, f)` followed by `fuse(vi, vo, v)`
succeeds and yields a Dimension List identical to the original up to the name
qualification `v ↦ v.vi.v`, an untouched Reduction Domain and predicate list,
and two appended history entries whose replay over the domain `[0, E)` (the
engine's own bound reconstruction) returns a single variable of min `0` and
extent `((E-1+f)/f) * f`, which simplifies back to exactly `E`. -/
theorem c7_split_fuse_inverse (E f : Int) (hf : 0 < f) (hfe : f ≤ E) (hdvd : f ∣ E) :
    (c7Split f).1 = none ∧
    (c7Fuse f).1 = none ∧
    (c7Fuse f).2.dims = [⟨"v.vi.v", .Serial, .noneAPI, .PureVar⟩,
                         ⟨"y", .Serial, .noneAPI, .PureVar⟩,
                         ⟨"__outermost", .Serial, .noneAPI, .PureVar⟩] ∧
    (c7Fuse f).2.rvars = stC7.rvars ∧
    (c7Fuse f).2.definition.predicates = stC7.definition.predicates ∧
    (c7Fuse f).2.splits
      = [{ old_var := "v", outer := "v.vo", inner := "v.vi", factor := .intImm f,
           exact := false, tail := .ShiftInwards, split_type := .SplitVar },
         { old_var := "v.vi.v", outer := "v.vo", inner := "v.vi", factor := .undefinedE,
           exact := true, tail := .RoundUp, split_type := .FuseVars }] ∧
    (c7Replay E f).1 = [] ∧
    (c7Replay E f).2.rvars
      = [⟨"v.vi.v", .intImm 0,
          .mul (.intImm (Int.fdiv (E - 1 + f) f)) (.intImm f)⟩] ∧
    simplify (.mul (.intImm (Int.fdiv (E - 1 + f) f)) (.intImm f)) = .intImm E := by
  have hf0 : f ≠ 0 := hf.ne'
  refine ⟨rfl, rfl, rfl, rfl, rfl, rfl, ?_, ?_, ?_⟩
  · simp [c7Replay, replaySplits, apply_split_directive, apply_split, apply_fuse,
          findRV, replaceSplitRV, replaceFuseRV, RDomState.substAll, simplify, hf0,
          Split.is_split, Split.is_fuse, c7Fuse, c7Split]
  · simp [c7Replay, replaySplits, apply_split_directive, apply_split, apply_fuse,
          findRV, replaceSplitRV, replaceFuseRV, RDomState.substAll, simplify, hf0,
          Split.is_split, Split.is_fuse, c7Fuse, c7Split]
  · show simplify _ = _
    simp only [simplify]
    exact congrArg Expr.intImm (fdiv_round_trip E f hf hdvd)

/-- C7 witness: the round trip at `E = 8`, `f = 4`. -/
theorem c7_witness :
    (0 : Int) < 4 ∧ (4 : Int) ≤ 8 ∧ (4 : Int) ∣ 8 ∧
    ((c7Split 4).1 = none ∧
     (c7Fuse 4).1 = none ∧
     (c7Fuse 4).2.dims = [⟨"v.vi.v", .Serial, .noneAPI, .PureVar⟩,
                          ⟨"y", .Serial, .noneAPI, .PureVar⟩,
                          ⟨"__outermost", .Serial, .noneAPI, .PureVar⟩] ∧
     (c7Fuse 4).2.rvars = stC7.rvars ∧
     (c7Fuse 4).2.definition.predicates = stC7.definition.predicates ∧
     (c7Fuse 4).2.splits
       = [{ old_var := "v", outer := "v.vo", inner := "v.vi", factor := .intImm 4,
            exact := false, tail := .ShiftInwards, split_type := .SplitVar },
          { old_var := "v.vi.v", outer := "v.vo", inner := "v.vi", factor := .undefinedE,
            exact := true, tail := .RoundUp, split_type := .FuseVars }] ∧
     (c7Replay 8 4).1 = [] ∧
     (c7Replay 8 4).2.rvars
       = [⟨"v.vi.v", .intImm 0,
           .mul (.intImm (Int.fdiv (8 - 1 + 4) 4)) (.intImm 4)⟩] ∧
     simplify (.mul (.intImm (Int.fdiv (8 - 1 + 4) 4)) (.intImm 4)) = .intImm 8) :=
  ⟨by decide, by decide, by decide,
   c7_split_fuse_inverse 8 4 (by decide) (by decide) (by decide)⟩

end Sched

namespace Sched

/-- The kept-flags of the reduction dimensions, in Dimension List order. -/
def rvarKeptFlags (dims : List Dim) (isR : List Bool) : List Bool :=
  ((dims.zip isR).filter (fun p => p.1.is_rvar)).map (fun p => p.2)

def isFalsesThenTrues : List Bool → Bool
  | [] => true
  | b :: rest => if b then rest.all (fun x => x = true) else isFalsesThenTrues rest

def isTruesThenFalses : List Bool → Bool
  | [] => true
  | b :: rest => if b then isTruesThenFalses rest else rest.all (fun x => x = false)

/-- Spec-side reading of §4.7 step 2: the preserved (kept) reduction
dimensions form a suffix of all reduction dimensions in Dimension List
order (once a kept reduction dimension appears, every outer reduction
dimension is kept too). -/
def preservedFormSuffix (dims : List Dim) (isR : List Bool) : Bool :=
  isFalsesThenTrues (rvarKeptFlags dims isR)

lemma ncCheckGo_spec (L : List (Dim × Bool))
    (h : ∀ p ∈ L, p.2 = true → p.1.is_rvar = true) :
    ncCheckGo none L
      = isTruesThenFalses ((L.filter (fun p => p.1.is_rvar)).map (fun p => p.2)) ∧
    ncCheckGo (some true) L
      = isTruesThenFalses ((L.filter (fun p => p.1.is_rvar)).map (fun p => p.2)) ∧
    ncCheckGo (some false) L
      = ((L.filter (fun p => p.1.is_rvar)).map (fun p => p.2)).all (fun x => x = false) := by
  induction L with
  | nil => exact ⟨rfl, rfl, rfl⟩
  | cons p rest ih =>
      obtain ⟨d, r⟩ := p
      have ih' := ih (fun q hq => h q (List.mem_cons_of_mem _ hq))
      have hd := h (d, r) (List.mem_cons_self _ _)
      cases hrv : d.is_rvar with
      | true =>
          cases r with
          | true =>
              simp [ncCheckGo, hrv, List.filter_cons, isTruesThenFalses,
                    ih'.1, ih'.2.1, ih'.2.2]
          | false =>
              simp [ncCheckGo, hrv, List.filter_cons, isTruesThenFalses,
                    ih'.1, ih'.2.1, ih'.2.2]
      | false =>
          have hr : r = false := by
            cases hr : r
            · rfl
            · exact absurd (hd hr) (by simp [hrv])
          subst hr
          simp [ncCheckGo, hrv, List.filter_cons, ih'.1, ih'.2.1, ih'.2.2]

lemma all_reverse_eq (x : List Bool) (p : Bool → Bool) :
    x.reverse.all p = x.all p := by
  induction x with
  | nil => rfl
  | cons b rest ih =>
      rw [List.reverse_cons, List.all_append]
      simp [ih, Bool.and_comm]

lemma isTTF_append_singleton (x : List Bool) (b : Bool) :
    isTruesThenFalses (x ++ [b])
      = if b then x.all (fun c => c = true) else isTruesThenFalses x := by
  induction x with
  | nil => cases b <;> rfl
  | cons c rest ih =>
      cases c with
      | true =>
          rw [List.cons_append]
          simp only [isTruesThenFalses, if_true]
          rw [ih]
          cases b <;> simp [isTruesThenFalses]
      | false =>
          rw [List.cons_append]
          simp only [isTruesThenFalses]
          cases b <;> simp [isTruesThenFalses, List.all_append]

lemma isTTF_reverse (x : List Bool) :
    isTruesThenFalses x.reverse = isFalsesThenTrues x := by
  induction x with
  | nil => rfl
  | cons b rest ih =>
      rw [List.reverse_cons, isTTF_append_singleton]
      cases b with
      | true => simp [isFalsesThenTrues, all_reverse_eq]
      | false => simp [isFalsesThenTrues, ih]

lemma filter_reverse_eq (p : Dim × Bool → Bool) (l : List (Dim × Bool)) :
    l.reverse.filter p = (l.filter p).reverse := by
  induction l with
  | nil => rfl
  | cons a rest ih =>
      cases hp : p a <;>
        simp [List.reverse_cons, List.filter_append, List.filter_cons, hp, ih]

/-- The non-commutative order check of `rfactor` accepts exactly the flag
vectors whose kept reduction dimensions form a suffix of the reduction
dimensions. -/
lemma ncCheck_eq_suffix (dims : List Dim) (isR : List Bool)
    (h : ∀ p ∈ dims.zip isR, p.2 = true → p.1.is_rvar = true) :
    ncCheck dims isR = preservedFormSuffix dims isR := by
  unfold ncCheck preservedFormSuffix rvarKeptFlags
  have h' : ∀ p ∈ (dims.zip isR).reverse, p.2 = true → p.1.is_rvar = true :=
    fun p hp => h p (List.mem_reverse.mp hp)
  rw [(ncCheckGo_spec _ h').1, filter_reverse_eq, List.map_reverse, isTTF_reverse]

/-- C2: when the prover certifies the update operator associative but not
commutative, `rfactor(preserved)` succeeds only if the preserved (kept)
reduction dimensions form a suffix of all reduction dimensions in Dimension
List order; when they do not, it fails with the non-commutative
order-violation error and returns the stage unchanged — the check runs before
any mutation. -/
theorem c2_rfactor_noncommutative_suffix (prover : ProverFn) (st : Stage)
    (preserved : List (String × String)) (isR : List Bool)
    (hInit : st.definition.is_init = false)
    (hassoc : (prover st.func_name st.definition.args st.definition.values).associative
                = true)
    (hcomm : (prover st.func_name st.definition.args st.definition.values).commutative
               = false)
    (hmark : markRfactored st.dims preserved (List.replicate st.dims.length false)
               = .ok isR)
    (hflags : ∀ p ∈ st.dims.zip isR, p.2 = true → p.1.is_rvar = true) :
    ((Stage.rfactor prover st preserved).1 = none →
       preservedFormSuffix st.dims isR = true) ∧
    (preservedFormSuffix st.dims isR = false →
       Stage.rfactor prover st preserved = (some .orderViolation, st, none)) := by
  have hnc := ncCheck_eq_suffix st.dims isR hflags
  have key : preservedFormSuffix st.dims isR = false →
      Stage.rfactor prover st preserved = (some .orderViolation, st, none) := by
    intro hsuf
    unfold Stage.rfactor
    rw [if_neg (by simp [hInit])]
    try dsimp only
    rw [if_neg (by simp [hassoc])]
    try dsimp only
    rw [hmark]
    try dsimp only
    rw [if_pos (by simp [hcomm, hnc, hsuf])]
  constructor
  · intro hok
    cases hps : preservedFormSuffix st.dims isR with
    | true => rfl
    | false =>
        rw [key hps] at hok
        simp at hok
  · exact key

/-- A subtract-accumulate stage with two adjacent impure reduction dimensions
`r1` (inner) and `r0` (outer): `f(x) = f(x) - h(r0, r1)`. -/
def stC4 : Stage :=
  { func_name := "f", dim_vars := ["x"],
    definition :=
      { is_init := false,
        args := [.evar "x"],
        values := [.sub (.call "f" (.cons (.evar "x") .nil) 0)
                        (.call "h" (.cons (.evar "r0") (.cons (.evar "r1") .nil)) 0)],
        predicates := [],
        schedule := { dims := [⟨"r1", .Serial, .noneAPI, .ImpureRVar⟩,
                               ⟨"r0", .Serial, .noneAPI, .ImpureRVar⟩,
                               ⟨"x", .Serial, .noneAPI, .PureVar⟩,
                               ⟨"__outermost", .Serial, .noneAPI, .PureVar⟩],
                      splits := [],
                      rvars := [⟨"r1", .intImm 0, .intImm 4⟩, ⟨"r0", .intImm 0, .intImm 4⟩],
                      allow_race_conditions := false, atomic := false,
                      override_atomic_associativity_test := false, fuse_level := none } } }

/-- C2 witness: keeping only the inner reduction dimension `r1` of `stC4`
under the associative-but-not-commutative prover violates the suffix
condition, and `rfactor` fails with the order-violation error leaving the
stage untouched. -/
theorem c2_witness :
    preservedFormSuffix stC4.dims [true, false, false, false] = false ∧
    Stage.rfactor subProver stC4 [("r1", "u")] = (some .orderViolation, stC4, none) :=
  ⟨rfl, (c2_rfactor_noncommutative_suffix subProver stC4 [("r1", "u")]
      [true, false, false, false] rfl rfl rfl rfl (by decide)).2 rfl⟩

end Sched

namespace Sched

lemma anyBadPairGo_eq_false_iff (L : List (Nat × Bool)) :
    anyBadPairGo L = false ↔
      L.Pairwise (fun a b => ¬(a.2 = true ∧ b.2 = true ∧ b.1 < a.1)) := by
  induction L with
  | nil => simp [anyBadPairGo]
  | cons p rest ih =>
      obtain ⟨k, imp⟩ := p
      rw [List.pairwise_cons, ← ih]
      cases imp with
      | false => simp [anyBadPairGo]
      | true =>
          simp only [anyBadPairGo, Bool.true_and, Bool.or_eq_false_iff]
          constructor
          · intro ⟨hany, hrest⟩
            refine ⟨?_, hrest⟩
            intro q hq ⟨_, hq2, hlt⟩
            have hq' : rest.any (fun p => p.2 && decide (p.1 < k)) = true :=
              List.any_eq_true.mpr ⟨q, hq, by simp [hq2, hlt]⟩
            rw [hq'] at hany
            exact Bool.noConfusion hany
          · intro ⟨hall, hrest⟩
            refine ⟨?_, hrest⟩
            cases hany : rest.any (fun p => p.2 && decide (p.1 < k)) with
            | false => rfl
            | true =>
                obtain ⟨q, hq, hqp⟩ := List.any_eq_true.mp hany
                simp only [Bool.and_eq_true, decide_eq_true_eq] at hqp
                exact absurd ⟨by trivial, hqp.1, hqp.2⟩ (hall q hq)

lemma anyBadPairGo_eq_true_iff (L : List (Nat × Bool)) :
    anyBadPairGo L = true ↔
      ¬ L.Pairwise (fun a b => ¬(a.2 = true ∧ b.2 = true ∧ b.1 < a.1)) := by
  rw [← anyBadPairGo_eq_false_iff]
  cases anyBadPairGo L <;> simp

/-- C4 amended: with all names resolved to their Dimension List indices and no
`compute_with` fuse level recorded, `reorder(vars)` raises the unsafe-reorder
error exactly when some pair of impure reduction-variable dimensions has its
relative order changed — adjacent or not — and the prover cannot certify the
operator both associative and commutative; on success the Dimension List is
permuted to the requested order (`permuteDims`). -/
theorem c4_amended_reorder (prover : ProverFn) (st : Stage) (vars : List String)
    (idx : List Nat)
    (hidx : resolveIdx st.dims vars = .ok idx) :
    ((Stage.reorder prover st vars).1 = some .unsafeReorder ↔
      (¬ (idx.map (fun k => (k, !(st.dims.getD k default).is_pure))).Pairwise
            (fun a b => ¬(a.2 = true ∧ b.2 = true ∧ b.1 < a.1)) ∧
       ¬((prover st.func_name st.definition.args st.definition.values).associative = true ∧
         (prover st.func_name st.definition.args st.definition.values).commutative = true))) ∧
    ((Stage.reorder prover st vars).1 = none →
      (Stage.reorder prover st vars).2.dims = permuteDims st.dims idx) := by
  unfold Stage.reorder
  dsimp only
  rw [hidx]
  dsimp only
  cases hc : (anyBadPair st.dims idx &&
      !((prover st.func_name st.definition.args st.definition.values).associative &&
        (prover st.func_name st.definition.args st.definition.values).commutative)) with
  | true =>
      rw [if_pos (show (true : Bool) = true from rfl)]
      have hbad : anyBadPair st.dims idx = true := by
        cases hb : anyBadPair st.dims idx
        · rw [hb] at hc; exact absurd hc (by simp)
        · rfl
      have hnp : ((prover st.func_name st.definition.args st.definition.values).associative &&
          (prover st.func_name st.definition.args st.definition.values).commutative)
            = false := by
        cases hp : ((prover st.func_name st.definition.args st.definition.values).associative &&
            (prover st.func_name st.definition.args st.definition.values).commutative)
        · rfl
        · rw [hbad, hp] at hc; exact absurd hc (by simp)
      constructor
      · simp only [Option.some.injEq, true_iff]
        refine ⟨(anyBadPairGo_eq_true_iff _).mp hbad, ?_⟩
        intro ⟨ha, hcm⟩
        rw [ha, hcm] at hnp
        exact Bool.noConfusion hnp
      · intro h
        exact absurd h (by simp)
  | false =>
      rw [if_neg (show ¬((false : Bool) = true) by decide)]
      have hsplit : anyBadPair st.dims idx = false ∨
          ((prover st.func_name st.definition.args st.definition.values).associative &&
           (prover st.func_name st.definition.args st.definition.values).commutative)
             = true := by
        cases hb : anyBadPair st.dims idx
        · exact Or.inl rfl
        · cases hp : ((prover st.func_name st.definition.args st.definition.values).associative &&
              (prover st.func_name st.definition.args st.definition.values).commutative)
          · rw [hb, hp] at hc; exact absurd hc (by simp)
          · exact Or.inr rfl
      constructor
      · constructor
        · intro h
          exact absurd h (by simp)
        · intro ⟨hbad, hpr⟩
          exfalso
          rcases hsplit with h | h
          · exact hbad ((anyBadPairGo_eq_false_iff _).mp h)
          · have h2 := h
            simp only [Bool.and_eq_true] at h2
            exact hpr h2
      · intro _
        rfl

/-- C4 counterexample: in `stC4` the two impure reduction dimensions sit at
the adjacent indices 0 and 1, yet `reorder(r0, r1)` — which swaps their
relative order — raises the unsafe-reorder error under the
associative-but-not-commutative prover.  The claim's requirement that the
indices be non-adjacent is refuted. -/
theorem c4_counterexample :
    subProverResult.associative = true ∧
    subProverResult.commutative = false ∧
    lastMatchIdxGo "r0" 0 stC4.dims = some 1 ∧
    lastMatchIdxGo "r1" 0 stC4.dims = some 0 ∧
    (Stage.reorder subProver stC4 ["r0", "r1"]).1 = some .unsafeReorder :=
  ⟨rfl, rfl, rfl, rfl, rfl⟩

/-- C4 witness: under the commutative `+` prover the same reorder succeeds
and permutes the Dimension List as computed by `permuteDims`. -/
theorem c4_amended_witness :
    (Stage.reorder plusProver stC4 ["r0", "r1"]).2.dims
      = permuteDims stC4.dims [1, 0] :=
  (c4_amended_reorder plusProver stC4 ["r0", "r1"] [1, 0] rfl).2 rfl

end Sched
